import Mathlib

/-!
# arcadehid: pin-to-HID translation core (`src/app.c`)

A shallow embedding of the application core of the arcade controller adapter:
the debouncing sampler (`APP_timer`), the pin activation pass and dispatch
(`app_pins_update`), the keyboard aggregator (`app_send_kb_report`), the mouse
aggregator (`app_check_mouse_levels`, `app_send_mouse_report`), the link-ready
callbacks and the configuration interface.

Conventions of the embedding:
* the single global `app` struct becomes the record `App`, passed explicitly;
* the per-pin tables of `app` are total maps `Nat → α`; the loops of the
  source only visit the indices `0 .. APP_CONFIG_PINS-1`;
* machine integers are `Nat`/`Int`; a narrowing store is written with an
  explicit `%` (the 7-bit `same_state` counter, the `u8_t` locals);
* calls into the link layer (`USB_ARC_KB_tx`, `USB_ARC_MOUSE_tx`) append the
  transmitted report to a log kept in the record, the answers of
  `USB_ARC_KB_can_tx` / `USB_ARC_MOUSE_can_tx` are inputs;
* `TASK_create` + `TASK_run` of a one-shot task is returned to the caller as
  "the task that has been scheduled".
-/

namespace ArcadeHid

/-! ## Build constants -/

/-- The compile-time constants and macros that `app.c` takes from headers
(`app.h`, `usb_arcade.h`, `def_config.h`): they are parameters of the
embedding. -/
structure Platform where
  /-- number of physical pins -/
  APP_CONFIG_PINS : Nat
  /-- capacity of the definition list of a pin -/
  APP_CONFIG_DEFS_PER_PIN : Nat
  /-- number of keycode slots of a keyboard report -/
  USB_KB_REPORT_KEYMAP_SIZE : Nat
  /-- first modifier keycode -/
  MOD_LCTRL : Nat
  /-- the bit of a modifier keycode in the modifier mask -/
  MOD_BIT : Nat → Nat

/-! ## Data model -/

/-- `app_pin_state` -/
inductive app_pin_state where
  | PIN_INACTIVE
  | PIN_ACTIVE
  | PIN_ACTIVE_TERN
  deriving DecidableEq, Repr

/-- The mouse codes a mouse definition can carry. -/
inductive mouse_code where
  | MOUSE_X
  | MOUSE_Y
  | MOUSE_WHEEL
  | MOUSE_BUTTON1
  | MOUSE_BUTTON2
  | MOUSE_BUTTON3
  deriving DecidableEq, Repr

/-- One HID definition of a pin: the tagged union `hid_id`. `none` stands for
every `type` that is neither `HID_ID_TYPE_KEYBOARD` nor `HID_ID_TYPE_MOUSE`
(an empty slot). Keycodes are HID usage bytes. -/
inductive hid_id where
  | none
  | kb (kb_code : Nat)
  | mouse (code : mouse_code) (mouse_sign : Bool) (mouse_data : Nat) (mouse_acc : Bool)
  deriving DecidableEq, Repr

/-- `def_config`: the configuration of one pin. `pin` and `tern_pin` are
1-based pin numbers, `tern_pin = 0` means "not ternary". -/
structure def_config where
  pin : Nat
  tern_pin : Nat
  tern_splice : Nat
  id : Nat → hid_id

/-- `pin_debounce`: a one bit level and a 7-bit counter. -/
structure pin_debounce where
  pin_active : Bool
  same_state : Nat
  deriving DecidableEq, Repr

/-- `usb_kb_report`: modifier byte, reserved byte, keycode slots. -/
structure usb_kb_report where
  modifiers : Nat
  reserved : Nat
  keymap : List Nat
  deriving DecidableEq, Repr

/-- `usb_mouse_report`: button byte and three signed deltas. -/
structure usb_mouse_report where
  modifiers : Nat
  dx : Int
  dy : Int
  wheel : Int
  deriving DecidableEq, Repr

/-- `mouse_state` -/
structure mouse_state where
  dx : Int
  dy : Int
  dw : Int
  butt_mask : Nat
  deriving DecidableEq, Repr

/-- The global `app` record, together with the file-level flag `app_init`,
the log of what has been handed to the link layer and whether the mouse
re-arm timer is running. -/
structure App where
  pin_config : Nat → def_config
  debounce_valid_cycles : Nat
  mouse_delta : Nat
  acc_pos_speed : Nat
  acc_wheel_speed : Nat
  dirty_gpio : Bool
  lock_gpio_sampling : Bool
  irq_debounce_map : Nat → pin_debounce
  irq_cur_pin_active : Nat → Bool
  pin_state : Nat → app_pin_state
  pin_state_prev : Nat → app_pin_state
  pin_has_mouse : Nat → Bool
  dirty_kb : Bool
  kb_report_prev : usb_kb_report
  mouse_timer_running : Bool
  dirty_mouse : Bool
  butt_mask_prev : Nat
  acc_pos : Nat
  acc_whe : Nat
  app_init : Bool
  kb_sent : List usb_kb_report
  mouse_sent : List usb_mouse_report

/-- Store into one entry of a table: `t[i] = v`. -/
def tset {α : Type} (t : Nat → α) (i : Nat) (v : α) : Nat → α :=
  fun j => if j = i then v else t j

/-- The all-zero `def_config` left by `memset`. -/
def def_config_zero : def_config :=
  { pin := 0, tern_pin := 0, tern_splice := 0, id := fun _ => hid_id.none }

/-- The all-zero keyboard report left by `memset`. -/
def kb_report_zero (P : Platform) : usb_kb_report :=
  { modifiers := 0, reserved := 0, keymap := List.replicate P.USB_KB_REPORT_KEYMAP_SIZE 0 }

/-! ## The sampler: `APP_timer` -/

/-- The body of the debouncer loop of `APP_timer` for one pin. `raw pin` is
the sampled level `gpio_get(..) == 0`; the second component is `any_changes`. -/
def APP_timer_pin (raw : Nat → Bool) (st : App × Bool) (pin : Nat) : App × Bool :=
  let app := st.1
  let pin_active := raw pin
  let db := app.irq_debounce_map pin
  let app1 : App :=
    if pin_active = db.pin_active then
      if db.same_state < app.debounce_valid_cycles then
        { app with irq_debounce_map := (tset app.irq_debounce_map pin
            { pin_active := db.pin_active, same_state := (db.same_state + 1) % 128 }) }
      else
        if app.irq_cur_pin_active pin ≠ pin_active then
          { app with irq_cur_pin_active := tset app.irq_cur_pin_active pin pin_active }
        else app
    else
      { app with irq_debounce_map := (tset app.irq_debounce_map pin
          { pin_active := pin_active, same_state := 0 }) }
  let any_changes :=
    if app1.irq_cur_pin_active pin ≠ (decide (app1.pin_state pin ≠ app_pin_state.PIN_INACTIVE))
    then true else st.2
  (app1, any_changes)

/-- `APP_timer` without the led blinking: one sampling tick. The result is the
new record and whether the task `app_pins_dirty_msg` has been scheduled. -/
def APP_timer (P : Platform) (raw : Nat → Bool) (app : App) : App × Bool :=
  if app.app_init then
    if !app.lock_gpio_sampling then
      let r := (List.range P.APP_CONFIG_PINS).foldl (APP_timer_pin raw) (app, false)
      if !r.1.dirty_gpio && r.2 then
        ({ r.1 with dirty_gpio := true }, true)
      else (r.1, false)
    else (app, false)
  else (app, false)

/-! ## Definition resolver -/

/-- `app_get_def_boundary`: the pair `(def_start, def_end)`. -/
def app_get_def_boundary (P : Platform) (app : App) (pin : Nat) : Nat × Nat :=
  if (app.pin_config pin).tern_pin ≠ 0 then
    if app.pin_state pin = app_pin_state.PIN_ACTIVE_TERN then
      ((app.pin_config pin).tern_splice, P.APP_CONFIG_DEFS_PER_PIN)
    else
      (0, (app.pin_config pin).tern_splice)
  else
    (0, P.APP_CONFIG_DEFS_PER_PIN)

/-- The definition indices `def_start, .., def_end-1` of
`for (def = def_start; def < def_end; def++)`. -/
def def_range (b : Nat × Nat) : List Nat :=
  List.range' b.1 (b.2 - b.1)

/-! ## Keyboard aggregator -/

/-- The locals `report` and `report_ix` of `app_send_kb_report`. -/
structure kb_build where
  report : usb_kb_report
  report_ix : Nat
  deriving DecidableEq, Repr

/-- The dedup scan `while (i <= report_ix && report.keymap[i++] != kb_code);`
started at `i`; the result is the final value of `i`. The first argument
bounds the number of iterations; `report_ix + 2` is never exhausted. -/
def kb_dedup_scan : Nat → List Nat → Nat → Nat → Nat → Nat
  | 0, _, _, _, i => i
  | fuel + 1, keymap, report_ix, kb_code, i =>
    if i ≤ report_ix then
      if keymap.getD i 0 ≠ kb_code then kb_dedup_scan fuel keymap report_ix kb_code (i + 1)
      else i + 1
    else i

/-- The body of the inner loop of `app_send_kb_report` for one definition.
After `report_ix` has reached the keymap size the loop has been left
(`break`), so the remaining definitions leave the locals alone. -/
def kb_def_step (P : Platform) (st : kb_build) (d : hid_id) : kb_build :=
  if st.report_ix ≥ P.USB_KB_REPORT_KEYMAP_SIZE then st
  else
    match d with
    | hid_id.kb kb_code =>
      if kb_code ≥ P.MOD_LCTRL then
        { st with report :=
            { st.report with modifiers := (st.report.modifiers ||| P.MOD_BIT kb_code) % 256 } }
      else
        let i := kb_dedup_scan (st.report_ix + 2) st.report.keymap st.report_ix kb_code 0
        if i > st.report_ix then
          { report := { st.report with keymap := st.report.keymap.set st.report_ix kb_code },
            report_ix := st.report_ix + 1 }
        else st
    | _ => st

/-- The body of the outer loop of `app_send_kb_report` for one pin. The loop
condition `report_ix < USB_KB_REPORT_KEYMAP_SIZE` ends the loop for good once
it fails, because `report_ix` never decreases. -/
def kb_pin_step (P : Platform) (app : App) (st : kb_build) (pin : Nat) : kb_build :=
  if st.report_ix < P.USB_KB_REPORT_KEYMAP_SIZE then
    if app.pin_state pin = app_pin_state.PIN_INACTIVE then st
    else
      (def_range (app_get_def_boundary P app pin)).foldl
        (fun acc d => kb_def_step P acc ((app.pin_config pin).id d)) st
  else st

/-- The report built by the two loops of `app_send_kb_report`. -/
def kb_build_report (P : Platform) (app : App) : kb_build :=
  (List.range P.APP_CONFIG_PINS).foldl (kb_pin_step P app)
    { report := kb_report_zero P, report_ix := 0 }

/-- `USB_ARC_KB_tx` (`usb_hw_config.c`): clears the reserved byte of the
caller's report and hands it to the endpoint. The wait for the previous
transfer and the endpoint registers are not modelled. -/
def USB_ARC_KB_tx (app : App) (report : usb_kb_report) : App × usb_kb_report :=
  let r : usb_kb_report := { report with reserved := 0 }
  ({ app with kb_sent := app.kb_sent ++ [r] }, r)

/-- `app_send_kb_report` -/
def app_send_kb_report (P : Platform) (app : App) : App :=
  let report := (kb_build_report P app).report
  let diff : Bool := decide (report ≠ app.kb_report_prev)
  let app1 : App :=
    if diff then
      let r := USB_ARC_KB_tx app report
      { r.1 with kb_report_prev := r.2 }
    else app
  { app1 with dirty_kb := false }

/-! ## Mouse aggregator -/

/-- The locals of the scan of `app_check_mouse_levels`. -/
structure mouse_scan where
  mdx : Int
  mdy : Int
  mdw : Int
  butt_mask : Nat
  pos_change : Bool
  wheel_change : Bool
  deriving DecidableEq, Repr

/-- The `u8_t displacement` computed for a mouse definition. -/
def mouse_displacement (app : App) (code : mouse_code) (mouse_data : Nat) (mouse_acc : Bool) :
    Nat :=
  let data := mouse_data % 256
  if mouse_acc then
    let acc := if code = mouse_code.MOUSE_WHEEL then app.acc_whe else app.acc_pos
    if acc + data < 0xfff then
      let displacement := (1 + ((((data * acc) % 2 ^ 32) >>> 12) % 256)) % 256
      min displacement data
    else data
  else data

/-- The body of the inner loop of `app_check_mouse_levels` for one definition. -/
def mouse_def_step (app : App) (st : mouse_scan) (d : hid_id) : mouse_scan :=
  match d with
  | hid_id.mouse code sign mouse_data mouse_acc =>
    let displacement : Int := (mouse_displacement app code mouse_data mouse_acc : Nat)
    let delta : Int := if sign then -displacement else displacement
    match code with
    | mouse_code.MOUSE_X =>
      { st with mdx := if st.mdx = 0 then st.mdx + delta else st.mdx, pos_change := true }
    | mouse_code.MOUSE_Y =>
      { st with mdy := if st.mdy = 0 then st.mdy + delta else st.mdy, pos_change := true }
    | mouse_code.MOUSE_WHEEL =>
      { st with mdw := if st.mdw = 0 then st.mdw + delta else st.mdw, wheel_change := true }
    | mouse_code.MOUSE_BUTTON1 => { st with butt_mask := st.butt_mask ||| (1 <<< 2) }
    | mouse_code.MOUSE_BUTTON2 => { st with butt_mask := st.butt_mask ||| (1 <<< 1) }
    | mouse_code.MOUSE_BUTTON3 => { st with butt_mask := st.butt_mask ||| (1 <<< 0) }
  | _ => st

/-- The body of the outer loop of `app_check_mouse_levels` for one pin. -/
def mouse_pin_step (P : Platform) (app : App) (st : mouse_scan) (pin : Nat) : mouse_scan :=
  if !app.pin_has_mouse pin || decide (app.pin_state pin = app_pin_state.PIN_INACTIVE) then st
  else
    (def_range (app_get_def_boundary P app pin)).foldl
      (fun acc d => mouse_def_step app acc ((app.pin_config pin).id d)) st

/-- The locals of `app_check_mouse_levels` after the scan of all pins. -/
def mouse_scan_all (P : Platform) (app : App) : mouse_scan :=
  (List.range P.APP_CONFIG_PINS).foldl (mouse_pin_step P app)
    { mdx := 0, mdy := 0, mdw := 0, butt_mask := 0, pos_change := false, wheel_change := false }

/-- `app_check_mouse_levels`: the updated record (accumulators), the
`mouse_state` written through `ms` and the returned flag. -/
def app_check_mouse_levels (P : Platform) (app : App) : App × mouse_state × Bool :=
  let sc := mouse_scan_all P app
  let app1 : App :=
    if sc.pos_change then { app with acc_pos := min (app.acc_pos + app.acc_pos_speed) 0xfff }
    else { app with acc_pos := 0 }
  let app2 : App :=
    if sc.wheel_change then { app1 with acc_whe := min (app1.acc_whe + app1.acc_wheel_speed) 0xfff }
    else { app1 with acc_whe := 0 }
  let ms : mouse_state :=
    { dx := if sc.pos_change then sc.mdx else 0,
      dy := if sc.pos_change then sc.mdy else 0,
      dw := if sc.wheel_change then sc.mdw else 0,
      butt_mask := if app.butt_mask_prev ≠ sc.butt_mask then sc.butt_mask else app.butt_mask_prev }
  (app2, ms, sc.pos_change || sc.wheel_change || decide (app.butt_mask_prev ≠ sc.butt_mask))

/-- The three-way clamp of `app_send_mouse_report`. -/
def mouse_clamp (v : Int) : Int :=
  if v < -127 then -127 else if v > 127 then 127 else v

/-- `app_send_mouse_report` -/
def app_send_mouse_report (app : App) (ms : mouse_state) : App :=
  let report : usb_mouse_report :=
    { modifiers := ms.butt_mask, dx := mouse_clamp ms.dx, dy := mouse_clamp ms.dy,
      wheel := mouse_clamp ms.dw }
  { app with mouse_sent := app.mouse_sent ++ [report], butt_mask_prev := ms.butt_mask,
             dirty_mouse := false }

/-! ## Pin activation and dispatch -/

/-- `app_trigger_pin`; the parameter `pin` is a `u8_t`. -/
def app_trigger_pin (app : App) (pin : Nat) (active : Bool) : App :=
  let pin := pin % 256
  if active then
    if (app.pin_config pin).tern_pin > 0 then
      if app.irq_cur_pin_active ((app.pin_config pin).tern_pin - 1) then
        { app with pin_state := tset app.pin_state pin app_pin_state.PIN_ACTIVE_TERN }
      else
        { app with pin_state := tset app.pin_state pin app_pin_state.PIN_ACTIVE }
    else
      { app with pin_state := tset app.pin_state pin app_pin_state.PIN_ACTIVE }
  else
    { app with pin_state := tset app.pin_state pin app_pin_state.PIN_INACTIVE }

/-- The body of the loop "trigger changed pins" of `app_pins_update`. -/
def pins_trigger_step (app : App) (pin : Nat) : App :=
  if app.pin_state pin = app_pin_state.PIN_INACTIVE ∧ app.irq_cur_pin_active pin = true then
    app_trigger_pin app pin true
  else if app.pin_state pin ≠ app_pin_state.PIN_INACTIVE ∧ app.irq_cur_pin_active pin = false then
    app_trigger_pin app pin false
  else app

/-- The activation pass of `app_pins_update`: the loop between taking and
releasing `lock_gpio_sampling`. -/
def pins_trigger_all (P : Platform) (app : App) : App :=
  (List.range P.APP_CONFIG_PINS).foldl pins_trigger_step app

/-- The keyboard edge check of `app_pins_update`: the new value of `dirty_kb`. -/
def pins_kb_dirty (P : Platform) (app : App) : Bool :=
  if !app.dirty_kb then
    (List.range P.APP_CONFIG_PINS).foldl
      (fun found pin => if found then true
        else decide (app.pin_state pin ≠ app.pin_state_prev pin)) false
  else app.dirty_kb

/-- The section "keyboard check, flank triggered" of `app_pins_update`. -/
def pins_update_kb (P : Platform) (kb_can_tx : Bool) (app : App) : App :=
  let a1 : App := { app with dirty_kb := pins_kb_dirty P app }
  if a1.dirty_kb && kb_can_tx then app_send_kb_report P a1 else a1

/-- The section "mouse check, level triggered" of `app_pins_update`. Stopping
and restarting the re-arm timer leaves it running exactly when the level is
dirty. -/
def pins_update_mouse (P : Platform) (mouse_can_tx : Bool) (app : App) : App :=
  let r := app_check_mouse_levels P app
  let ms := r.2.1
  let dirty_mouse_level := r.2.2
  let a1 : App := { r.1 with mouse_timer_running := dirty_mouse_level }
  if (dirty_mouse_level || a1.dirty_mouse) && mouse_can_tx then app_send_mouse_report a1 ms
  else if dirty_mouse_level && !mouse_can_tx then { a1 with dirty_mouse := true }
  else a1

/-- The section "trigger changed pins" of `app_pins_update`, between taking
and releasing the sampling lock. -/
def pins_update_trigger (P : Platform) (app : App) : App :=
  let a1 : App := { app with lock_gpio_sampling := true }
  let a2 := pins_trigger_all P a1
  { a2 with lock_gpio_sampling := false }

/-- The section "update app states" of `app_pins_update`. -/
def pins_update_states (app : App) : App :=
  { app with pin_state_prev := app.pin_state, dirty_gpio := false }

/-- `app_pins_update`; `kb_can_tx` and `mouse_can_tx` are the answers of
`USB_ARC_KB_can_tx()` and `USB_ARC_MOUSE_can_tx()`. -/
def app_pins_update (P : Platform) (kb_can_tx mouse_can_tx : Bool) (app : App) : App :=
  pins_update_states
    (pins_update_mouse P mouse_can_tx (pins_update_kb P kb_can_tx (pins_update_trigger P app)))

/-! ## Events -/

/-- `app_kb_usb_ready_msg` -/
def app_kb_usb_ready_msg (P : Platform) (app : App) : App :=
  if app.dirty_kb then app_send_kb_report P app else app

/-- `app_mouse_usb_ready_msg` -/
def app_mouse_usb_ready_msg (P : Platform) (app : App) : App :=
  let r := app_check_mouse_levels P app
  let a1 : App := if !r.2.2 then { r.1 with mouse_timer_running := false } else r.1
  if a1.dirty_mouse then app_send_mouse_report a1 r.2.1 else a1

/-- `app_mouse_timer_msg` -/
def app_mouse_timer_msg (P : Platform) (mouse_can_tx : Bool) (app : App) : App :=
  let r := app_check_mouse_levels P app
  let a1 := r.1
  let dirty_mouse := r.2.2
  if (dirty_mouse || a1.dirty_mouse) && mouse_can_tx then app_send_mouse_report a1 r.2.1
  else if dirty_mouse && !mouse_can_tx then { a1 with dirty_mouse := true }
  else if !dirty_mouse && !a1.dirty_mouse then { a1 with acc_pos := 0, acc_whe := 0 }
  else a1

/-- `app_pins_dirty_msg` -/
def app_pins_dirty_msg (P : Platform) (kb_can_tx mouse_can_tx : Bool) (app : App) : App :=
  app_pins_update P kb_can_tx mouse_can_tx app

/-- `app_kb_ready_irq`: whether the task `app_kb_usb_ready_msg` is scheduled. -/
def app_kb_ready_irq (app : App) : Bool :=
  if app.dirty_gpio then true else false

/-- `app_mouse_ready_irq`: the task `app_mouse_usb_ready_msg` is always scheduled. -/
def app_mouse_ready_irq (_app : App) : Bool :=
  true

/-- The keyboard link-ready notification: the callback `app_kb_ready_irq`
followed by the task it has scheduled, if any. -/
def kb_ready_notification (P : Platform) (app : App) : App :=
  if app_kb_ready_irq app then app_kb_usb_ready_msg P app else app

/-- The mouse link-ready notification: the callback `app_mouse_ready_irq`
followed by the task it has scheduled. -/
def mouse_ready_notification (P : Platform) (app : App) : App :=
  if app_mouse_ready_irq app then app_mouse_usb_ready_msg P app else app

/-! ## Interface -/

/-- `APP_init`: the zeroed record with the default configuration, nothing
transmitted yet. -/
def APP_init (P : Platform) : App :=
  { pin_config := fun _ => def_config_zero,
    debounce_valid_cycles := 8,
    mouse_delta := 7,
    acc_pos_speed := 4,
    acc_wheel_speed := 4,
    dirty_gpio := false,
    lock_gpio_sampling := false,
    irq_debounce_map := fun _ => { pin_active := false, same_state := 0 },
    irq_cur_pin_active := fun _ => false,
    pin_state := fun _ => app_pin_state.PIN_INACTIVE,
    pin_state_prev := fun _ => app_pin_state.PIN_INACTIVE,
    pin_has_mouse := fun _ => false,
    dirty_kb := false,
    kb_report_prev := kb_report_zero P,
    mouse_timer_running := false,
    dirty_mouse := false,
    butt_mask_prev := 0,
    acc_pos := 0,
    acc_whe := 0,
    app_init := true,
    kb_sent := [],
    mouse_sent := [] }

/-- The loop of `APP_cfg_set_pin` that looks for a mouse definition. -/
def cfg_has_mouse (P : Platform) (cfg : def_config) : Bool :=
  (List.range P.APP_CONFIG_DEFS_PER_PIN).foldl
    (fun found d => if found then true
      else match cfg.id d with
        | hid_id.mouse _ _ _ _ => true
        | _ => false) false

/-- `APP_cfg_set_pin`; `cfg.pin` is the 1-based pin number, `1 ≤ cfg.pin` is
required for the index `cfg->pin - 1` to lie in the tables. -/
def APP_cfg_set_pin (P : Platform) (cfg : def_config) (app : App) : App :=
  let ix := cfg.pin - 1
  { app with
    pin_config := tset app.pin_config ix cfg,
    pin_state := tset app.pin_state ix app_pin_state.PIN_INACTIVE,
    pin_state_prev := tset app.pin_state_prev ix app_pin_state.PIN_INACTIVE,
    irq_cur_pin_active := tset app.irq_cur_pin_active ix false,
    pin_has_mouse := tset app.pin_has_mouse ix (cfg_has_mouse P cfg) }

/-- `APP_cfg_get_pin`: the entry `app.pin_config[pin]` the returned pointer
refers to; the parameter is a `u8_t`. -/
def APP_cfg_get_pin (app : App) (pin : Nat) : def_config :=
  app.pin_config (pin % 256)

/-- `APP_cfg_set_debounce_cycles`; the parameter is a `u8_t`. -/
def APP_cfg_set_debounce_cycles (cycles : Nat) (app : App) : App :=
  { app with debounce_valid_cycles := cycles % 256 }

/-- `APP_cfg_get_debounce_cycles` -/
def APP_cfg_get_debounce_cycles (app : App) : Nat :=
  app.debounce_valid_cycles

/-- `APP_cfg_set_mouse_delta_ms` -/
def APP_cfg_set_mouse_delta_ms (ms : Nat) (app : App) : App :=
  { app with mouse_delta := ms }

/-- `APP_cfg_get_mouse_delta_ms` -/
def APP_cfg_get_mouse_delta_ms (app : App) : Nat :=
  app.mouse_delta

/-- `APP_cfg_set_acc_pos_speed`; the parameter is a `u16_t`. -/
def APP_cfg_set_acc_pos_speed (speed : Nat) (app : App) : App :=
  { app with acc_pos_speed := speed % 65536 }

/-- `APP_cfg_get_acc_pos_speed` -/
def APP_cfg_get_acc_pos_speed (app : App) : Nat :=
  app.acc_pos_speed

/-- `APP_cfg_set_acc_wheel_speed`; the parameter is a `u16_t`. -/
def APP_cfg_set_acc_wheel_speed (speed : Nat) (app : App) : App :=
  { app with acc_wheel_speed := speed % 65536 }

/-- `APP_cfg_get_acc_wheel_speed` -/
def APP_cfg_get_acc_wheel_speed (app : App) : Nat :=
  app.acc_wheel_speed

/-- One sampling tick as the scheduler runs it: `APP_timer`, then the task
`app_pins_dirty_msg` when `APP_timer` has scheduled it. -/
def tick (P : Platform) (kb_can_tx mouse_can_tx : Bool) (app : App) (raw : Nat → Bool) : App :=
  let r := APP_timer P raw app
  if r.2 then app_pins_dirty_msg P kb_can_tx mouse_can_tx r.1 else r.1

/-! ## Runs of sampling ticks -/

/-- What the environment supplies at one sampling tick: the answers of the
two `can_tx` predicates and the sampled level of every pin. -/
structure tick_input where
  kb_can_tx : Bool
  mouse_can_tx : Bool
  raw : Nat → Bool

/-- The record after a sequence of sampling ticks. -/
def run_ticks (P : Platform) (app : App) (evs : List tick_input) : App :=
  evs.foldl (fun a e => tick P e.kb_can_tx e.mouse_can_tx a e.raw) app

/-- What the debouncer of `APP_timer` does to the debounce entry and the
confirmed level of the pin it is looking at, given the sample `raw`. -/
def debounce_next (cycles : Nat) (db : pin_debounce) (cur : Bool) (raw : Bool) :
    pin_debounce × Bool :=
  if raw = db.pin_active then
    if db.same_state < cycles then
      ({ pin_active := db.pin_active, same_state := (db.same_state + 1) % 128 }, cur)
    else (db, raw)
  else ({ pin_active := raw, same_state := 0 }, cur)

/-- The effect of the debouncer loop of `APP_timer` on the whole record: the
first `n` pins have been sampled. -/
def debounce_all (n : Nat) (raw : Nat → Bool) (app : App) : App :=
  { app with
    irq_debounce_map := fun q =>
      if q < n then
        (debounce_next app.debounce_valid_cycles (app.irq_debounce_map q)
          (app.irq_cur_pin_active q) (raw q)).1
      else app.irq_debounce_map q,
    irq_cur_pin_active := fun q =>
      if q < n then
        (debounce_next app.debounce_valid_cycles (app.irq_debounce_map q)
          (app.irq_cur_pin_active q) (raw q)).2
      else app.irq_cur_pin_active q }

/-- The part of the record that belongs to the sampler and the configuration
interface: nothing in `app_pins_update` writes it. -/
def sampler_view (a : App) :
    (Nat → pin_debounce) × (Nat → Bool) × Nat × Bool × (Nat → def_config) × (Nat → Bool) :=
  (a.irq_debounce_map, a.irq_cur_pin_active, a.debounce_valid_cycles, a.app_init,
    a.pin_config, a.pin_has_mouse)

/-! ## Definitions used in the statements: expected values and worked examples -/

/-- A concrete build used for the worked runs: 26 pins, 8 definitions per
pin, 6 keycode slots, the modifier keycodes start at `0xE0` and
`MOD_BIT(c) = 1 << (c - MOD_LCTRL)`. -/
def board : Platform :=
  { APP_CONFIG_PINS := 26,
    APP_CONFIG_DEFS_PER_PIN := 8,
    USB_KB_REPORT_KEYMAP_SIZE := 6,
    MOD_LCTRL := 0xe0,
    MOD_BIT := fun c => 1 <<< (c - 0xe0) }

/-- The tick input in which both links can transmit and exactly the pins of
`active` (0-based indices) are sampled active. -/
def sample (active : List Nat) : tick_input :=
  { kb_can_tx := true, mouse_can_tx := true, raw := fun pin => decide (pin ∈ active) }

/-- The state the activation pass of `app_pins_update` gives to one pin, read
off `pins_trigger_step` and `app_trigger_pin`. -/
def activation_rule (app : App) (pin : Nat) : app_pin_state :=
  if app.pin_state pin = app_pin_state.PIN_INACTIVE ∧ app.irq_cur_pin_active pin = true then
    if (app.pin_config pin).tern_pin > 0 ∧
        app.irq_cur_pin_active ((app.pin_config pin).tern_pin - 1) = true then
      app_pin_state.PIN_ACTIVE_TERN
    else app_pin_state.PIN_ACTIVE
  else if app.pin_state pin ≠ app_pin_state.PIN_INACTIVE ∧ app.irq_cur_pin_active pin = false then
    app_pin_state.PIN_INACTIVE
  else app.pin_state pin

/-- A record for the worked examples of the activation pass: after `APP_init`,
pin 2 is gated by pin 1, pins 1, 2 and 3 are confirmed active, pin 3 is
stored as active and pin 4 is stored as active but confirmed inactive. -/
def activation_example : App :=
  { APP_init board with
    pin_config := tset (APP_init board).pin_config 1
      { pin := 2, tern_pin := 1, tern_splice := 1, id := fun _ => hid_id.none },
    irq_cur_pin_active := fun q => decide (q < 3),
    pin_state := fun q =>
      if q = 2 ∨ q = 3 then app_pin_state.PIN_ACTIVE else app_pin_state.PIN_INACTIVE }

/-- The configuration of scenario 1: pin `pin` is not ternary and carries the
single keyboard definition `code` in slot 0. -/
def single_key_config (pin code : Nat) : def_config :=
  { pin := pin, tern_pin := 0, tern_splice := 0,
    id := fun d => if d = 0 then hid_id.kb code else hid_id.none }

/-- The tick input in which the keyboard link is busy and exactly the pins
of `active` (0-based indices) are sampled active. -/
def sample_kb_busy (active : List Nat) : tick_input :=
  { kb_can_tx := false, mouse_can_tx := true, raw := fun pin => decide (pin ∈ active) }

/-- A record with a pending keyboard report: after `APP_init` pin 1 gets the
key `0x04`, then the pin is sampled active on ten ticks while the keyboard
link cannot transmit. -/
def kb_pending_example : App :=
  run_ticks board (APP_cfg_set_pin board (single_key_config 1 4) (APP_init board))
    (List.replicate 10 (sample_kb_busy [0]))

/-- The definitions the keyboard scan runs over, in scan order: pins
ascending, and for every pin that is not inactive the definitions of its
resolved range ascending. -/
def kb_scanned (P : Platform) (app : App) : List hid_id :=
  (List.range P.APP_CONFIG_PINS).flatMap (fun pin =>
    if app.pin_state pin = app_pin_state.PIN_INACTIVE then []
    else (def_range (app_get_def_boundary P app pin)).map (app.pin_config pin).id)

/-- The non-modifier keycodes of the keyboard definitions of a list of
definitions, in order. -/
def nonmod_keycodes (P : Platform) (l : List hid_id) : List Nat :=
  l.filterMap (fun d =>
    match d with
    | hid_id.kb c => if c < P.MOD_LCTRL then some c else none
    | _ => none)

/-- The modifier keycodes of the keyboard definitions of a list of
definitions, in order. -/
def mod_keycodes (P : Platform) (l : List hid_id) : List Nat :=
  l.filterMap (fun d =>
    match d with
    | hid_id.kb c => if c ≥ P.MOD_LCTRL then some c else none
    | _ => none)

/-- The distinct elements of a list in the order of their first occurrence. -/
def first_distinct (l : List Nat) : List Nat :=
  l.foldl (fun acc c => if c ∈ acc then acc else acc ++ [c]) []

/-- A list of keycodes padded with zeros to `n` slots. -/
def zero_padded (n : Nat) (l : List Nat) : List Nat :=
  l ++ List.replicate (n - l.length) 0

/-- The OR, as a byte, of `MOD_BIT` over a list of modifier keycodes. -/
def mod_mask (P : Platform) (codes : List Nat) : Nat :=
  codes.foldl (fun m c => (m ||| P.MOD_BIT c) % 256) 0

/-- How one scanned definition extends the list `acc` of keycodes collected
so far when the keymap has `P.USB_KB_REPORT_KEYMAP_SIZE` slots. -/
def key_step (P : Platform) (acc : List Nat) (d : hid_id) : List Nat :=
  match d with
  | hid_id.kb c =>
    if c < P.MOD_LCTRL ∧ acc.length < P.USB_KB_REPORT_KEYMAP_SIZE ∧ c ∉ acc then acc ++ [c]
    else acc
  | _ => acc

/-- The keycodes the keymap is expected to hold, in the words of the
specification: the first `USB_KB_REPORT_KEYMAP_SIZE` distinct non-modifier
keycodes of the scanned definitions, in scan order. -/
def kb_expected_keys (P : Platform) (app : App) : List Nat :=
  (first_distinct (nonmod_keycodes P (kb_scanned P app))).take P.USB_KB_REPORT_KEYMAP_SIZE

/-- The configuration of the example for the modifier mask: pin `pin` is not
ternary and carries the six keys `4 .. 9` followed by the modifier `0xE1`
(left shift). -/
def six_keys_shift_config (pin : Nat) : def_config :=
  { pin := pin, tern_pin := 0, tern_splice := 0,
    id := fun d => if d < 6 then hid_id.kb (4 + d) else if d = 6 then hid_id.kb 0xe1
      else hid_id.none }

/-- The record after `APP_init`, `APP_cfg_set_pin` of `six_keys_shift_config`
for pin 1 and ten ticks that sample pin 1 active, both links free. -/
def six_keys_shift_example : App :=
  run_ticks board (APP_cfg_set_pin board (six_keys_shift_config 1) (APP_init board))
    (List.replicate 10 (sample [0]))

/-- The record after `APP_init`, `APP_cfg_set_pin` for pin 1 with the
definitions left shift (`0xE1`) and key `4`, and ten ticks that sample pin 1
active, both links free. -/
def shift_key_example : App :=
  run_ticks board
    (APP_cfg_set_pin board
      { pin := 1, tern_pin := 0, tern_splice := 0,
        id := fun d => if d = 0 then hid_id.kb 0xe1 else if d = 1 then hid_id.kb 4
          else hid_id.none }
      (APP_init board))
    (List.replicate 10 (sample [0]))

/-- The definitions the mouse scan runs over, in scan order: pins ascending,
and for every pin that has a mouse definition and is not inactive the
definitions of its resolved range ascending. -/
def mouse_scanned (P : Platform) (app : App) : List hid_id :=
  (List.range P.APP_CONFIG_PINS).flatMap (fun pin =>
    if !app.pin_has_mouse pin || decide (app.pin_state pin = app_pin_state.PIN_INACTIVE) then []
    else (def_range (app_get_def_boundary P app pin)).map (app.pin_config pin).id)

/-- What a definition contributes to the delta of `axis` (`MOUSE_X`,
`MOUSE_Y` or `MOUSE_WHEEL`): the signed displacement of a mouse definition
with that code, 0 for every other definition. -/
def mouse_axis_delta (app : App) (axis : mouse_code) (d : hid_id) : Int :=
  match d with
  | hid_id.mouse code sign mouse_data mouse_acc =>
    if code = axis then
      if sign then -((mouse_displacement app code mouse_data mouse_acc : Nat) : Int)
      else ((mouse_displacement app code mouse_data mouse_acc : Nat) : Int)
    else 0
  | _ => 0

/-- The local of the mouse scan that belongs to an axis. -/
def mouse_scan_axis (axis : mouse_code) (st : mouse_scan) : Int :=
  match axis with
  | mouse_code.MOUSE_X => st.mdx
  | mouse_code.MOUSE_Y => st.mdy
  | mouse_code.MOUSE_WHEEL => st.mdw
  | _ => 0

/-- The change flag of the mouse scan that belongs to an axis. -/
def mouse_scan_flag (axis : mouse_code) (st : mouse_scan) : Bool :=
  match axis with
  | mouse_code.MOUSE_X => st.pos_change
  | mouse_code.MOUSE_Y => st.pos_change
  | mouse_code.MOUSE_WHEEL => st.wheel_change
  | _ => false

/-- The delta of an axis in the `mouse_state` written by
`app_check_mouse_levels`. -/
def mouse_state_axis (axis : mouse_code) (ms : mouse_state) : Int :=
  match axis with
  | mouse_code.MOUSE_X => ms.dx
  | mouse_code.MOUSE_Y => ms.dy
  | mouse_code.MOUSE_WHEEL => ms.dw
  | _ => 0

/-- The configuration of a pin that is not ternary and carries one mouse
definition without acceleration in slot 0. -/
def single_mouse_config (pin : Nat) (code : mouse_code) (sign : Bool) (data : Nat) : def_config :=
  { pin := pin, tern_pin := 0, tern_splice := 0,
    id := fun d => if d = 0 then hid_id.mouse code sign data false else hid_id.none }

/-- The record after `APP_init`, `APP_cfg_set_pin` for pins 1 and 2 with one
definition on the same axis `code` each (magnitudes `m1` and `m2`, signs `s1`
and `s2`), and ten ticks that sample both pins active, both links free. -/
def two_axis_pins_example (code : mouse_code) (s1 : Bool) (m1 : Nat) (s2 : Bool) (m2 : Nat) :
    App :=
  run_ticks board
    (APP_cfg_set_pin board (single_mouse_config 2 code s2 m2)
      (APP_cfg_set_pin board (single_mouse_config 1 code s1 m1) (APP_init board)))
    (List.replicate 10 (sample [0, 1]))

/-- Whether the sampler of `APP_timer` sees a change on a pin: the confirmed
level after debouncing the sample differs from "the stored state is not
inactive". -/
def pin_changed (raw : Nat → Bool) (app : App) (q : Nat) : Bool :=
  decide ((debounce_next app.debounce_valid_cycles (app.irq_debounce_map q)
      (app.irq_cur_pin_active q) (raw q)).2
    ≠ decide (app.pin_state q ≠ app_pin_state.PIN_INACTIVE))

/-- The keyboard report of scenario 1: no modifier, the key `A` in the first
slot, zeros in the other slots. -/
def single_key_report (P : Platform) (A : Nat) : usb_kb_report :=
  { modifiers := 0, reserved := 0, keymap := zero_padded P.USB_KB_REPORT_KEYMAP_SIZE [A] }

/-- The starting record of scenario 1: `APP_init`, the debounce threshold set
to `c`, pin 1 configured with the single key `A`. -/
def scenario1_start (P : Platform) (c A : Nat) : App :=
  APP_cfg_set_pin P (single_key_config 1 A) (APP_cfg_set_debounce_cycles c (APP_init P))

/-- The records of scenario 1 in which nothing has happened yet on the
keyboard side: sampling is enabled with threshold `c`, no confirmed level is
active, every pin is inactive, nothing is pending or transmitted, and pin 1
carries the single key `A`. -/
def key_idle (P : Platform) (c A : Nat) (app : App) : Prop :=
  app.app_init = true ∧ app.lock_gpio_sampling = false ∧ app.debounce_valid_cycles = c ∧
  app.dirty_gpio = false ∧ app.dirty_kb = false ∧ app.kb_sent = [] ∧
  app.kb_report_prev = kb_report_zero P ∧
  (∀ q, app.irq_cur_pin_active q = false) ∧
  (∀ q, app.pin_state q = app_pin_state.PIN_INACTIVE) ∧
  (∀ q, app.pin_state_prev q = app_pin_state.PIN_INACTIVE) ∧
  app.pin_config 0 = single_key_config 1 A

/-- The debounce invariant of one pin along a run: `hist` are the samples of
the pin so far, the latest first. Either the latest `same_state + 1` samples
all equal the last sampled level, or the pin is still in the state of
`APP_init` as far as levels go (last sampled level and confirmed level
inactive). -/
def debounce_inv (hist : List Bool) (db : pin_debounce) (cur : Bool) : Prop :=
  hist.take (db.same_state + 1) = List.replicate (db.same_state + 1) db.pin_active ∨
  (db.pin_active = false ∧ cur = false)

/-- A record in which the gate of an active ternary pin has changed: after
`APP_init`, pin 2 is gated by pin 1 and stored as `PIN_ACTIVE`, pin 1 is
stored as inactive, and both pins are confirmed active. -/
def gate_change_example : App :=
  { APP_init board with
    pin_config := tset (APP_init board).pin_config 1
      { pin := 2, tern_pin := 1, tern_splice := 1, id := fun _ => hid_id.none },
    irq_cur_pin_active := fun q => decide (q < 2),
    pin_state := fun q =>
      if q = 1 then app_pin_state.PIN_ACTIVE else app_pin_state.PIN_INACTIVE }

/-- The record after `APP_init`, `APP_cfg_set_pin` for pin 2 with a ternary
configuration whose `tern_splice` is 9 (the board has 8 definition slots),
and ten ticks that sample pin 2 active. -/
def splice_overflow_example : App :=
  run_ticks board
    (APP_cfg_set_pin board
      { pin := 2, tern_pin := 1, tern_splice := 9, id := fun _ => hid_id.none }
      (APP_init board))
    (List.replicate 10 (sample [1]))

/-- The mouse report of the specification for a `mouse_state`: every delta
clamped to `[-127, 127]`, the button byte taken over. -/
def clamped_report (ms : mouse_state) : usb_mouse_report :=
  { modifiers := ms.butt_mask, dx := max (-127) (min 127 ms.dx),
    dy := max (-127) (min 127 ms.dy), wheel := max (-127) (min 127 ms.dw) }

/-- The accumulator that is relevant for a mouse code: `acc_whe` for the
wheel, `acc_pos` for every other code. -/
def mouse_relevant_acc (app : App) (code : mouse_code) : Nat :=
  if code = mouse_code.MOUSE_WHEEL then app.acc_whe else app.acc_pos

/-- Whether a definition is a mouse definition with the code `c`. -/
def is_mouse_code (c : mouse_code) (d : hid_id) : Bool :=
  match d with
  | hid_id.mouse code _ _ _ => decide (code = c)
  | _ => false

/-- Whether a definition is a mouse definition on `MOUSE_X` or `MOUSE_Y`. -/
def is_mouse_pos (d : hid_id) : Bool :=
  is_mouse_code mouse_code.MOUSE_X d || is_mouse_code mouse_code.MOUSE_Y d

/-- The configuration of scenario 2: pin 2 is ternary, gated by pin 1, with
`tern_splice = 1` and the definitions `MOUSE_X +10` and `MOUSE_X -10`, both
without acceleration; the remaining slots are empty. -/
def scenario2_config : def_config :=
  { pin := 2, tern_pin := 1, tern_splice := 1,
    id := fun d =>
      if d = 0 then hid_id.mouse mouse_code.MOUSE_X false 10 false
      else if d = 1 then hid_id.mouse mouse_code.MOUSE_X true 10 false
      else hid_id.none }

/-- Scenario 2 on the board build with pin 1 inactive: after `APP_init` and
`APP_cfg_set_pin` of `scenario2_config`, pin 2 has been sampled active on
nine ticks and `APP_timer` has just confirmed it on the tenth. -/
def scenario2_gate_inactive : App :=
  (APP_timer board (sample [1]).raw
    (run_ticks board (APP_cfg_set_pin board scenario2_config (APP_init board))
      (List.replicate 9 (sample [1])))).1

/-- Scenario 2 on the board build with pin 1 active: after `APP_init` and
`APP_cfg_set_pin` of `scenario2_config`, pin 1 has been sampled active on ten
ticks (confirmed and activated), then pins 1 and 2 on nine ticks, and
`APP_timer` has just confirmed pin 2 on the next one. -/
def scenario2_gate_active : App :=
  (APP_timer board (sample [0, 1]).raw
    (run_ticks board (APP_cfg_set_pin board scenario2_config (APP_init board))
      (List.replicate 10 (sample [0]) ++ List.replicate 9 (sample [0, 1])))).1

/-! # Properties -/

/-! ## Frame lemmas -/

theorem tset_same {α : Type} (t : Nat → α) (i : Nat) (v : α) : tset t i v i = v := by
  simp [tset]

theorem tset_other {α : Type} (t : Nat → α) (i j : Nat) (v : α) (h : j ≠ i) :
    tset t i v j = t j := by
  simp [tset, h]

theorem tset_self {α : Type} (t : Nat → α) (i : Nat) : tset t i (t i) = t := by
  funext j
  by_cases h : j = i <;> simp [tset, h]

theorem APP_timer_pin_spec (raw : Nat → Bool) (st : App × Bool) (pin : Nat) :
    let r := APP_timer_pin raw st pin
    let n := debounce_next st.1.debounce_valid_cycles (st.1.irq_debounce_map pin)
      (st.1.irq_cur_pin_active pin) (raw pin)
    r.1 = { st.1 with irq_debounce_map := tset st.1.irq_debounce_map pin n.1,
                      irq_cur_pin_active := tset st.1.irq_cur_pin_active pin n.2 } := by
  obtain ⟨app, b⟩ := st
  simp only [APP_timer_pin, debounce_next]
  have hd : tset app.irq_debounce_map pin (app.irq_debounce_map pin) = app.irq_debounce_map :=
    tset_self _ _
  have hc : tset app.irq_cur_pin_active pin (app.irq_cur_pin_active pin)
      = app.irq_cur_pin_active := tset_self _ _
  split_ifs with h1 h2 h3
  · simp [hc]
  · have h4 : app.irq_cur_pin_active pin = !raw pin := by
      cases hx : app.irq_cur_pin_active pin <;> cases hy : raw pin <;> simp_all
    simp [hd]
  · have h4 : app.irq_cur_pin_active pin = raw pin := by simpa using h3
    rw [← h4, hc, hd]
  · simp [hc]

theorem APP_timer_loop_spec (raw : Nat → Bool) (app : App) (b : Bool) (n : Nat) :
    ((List.range n).foldl (APP_timer_pin raw) (app, b)).1 = debounce_all n raw app := by
  induction n with
  | zero => simp [debounce_all]
  | succ n ih =>
    rw [List.range_succ, List.foldl_append, List.foldl_cons, List.foldl_nil]
    have h := APP_timer_pin_spec raw ((List.range n).foldl (APP_timer_pin raw) (app, b)) n
    simp only [] at h
    rw [h, ih]
    simp only [debounce_all, lt_self_iff_false, if_false]
    congr 1
    · funext q
      by_cases hq : q = n
      · subst hq; simp [tset]
      · by_cases hlt : q < n
        · have : q < n + 1 := by omega
          simp [tset, hq, hlt, this]
        · have : ¬ q < n + 1 := by omega
          simp [tset, hq, hlt, this]
    · funext q
      by_cases hq : q = n
      · subst hq; simp [tset]
      · by_cases hlt : q < n
        · have : q < n + 1 := by omega
          simp [tset, hq, hlt, this]
        · have : ¬ q < n + 1 := by omega
          simp [tset, hq, hlt, this]

/-- One call of `APP_timer` with sampling enabled debounces every pin with
its own sample and changes, besides the debounce state and the confirmed
levels, at most `dirty_gpio`. -/
theorem APP_timer_spec (P : Platform) (raw : Nat → Bool) (app : App)
    (hinit : app.app_init = true) (hlock : app.lock_gpio_sampling = false) :
    ∃ dg, (APP_timer P raw app).1 =
      { debounce_all P.APP_CONFIG_PINS raw app with dirty_gpio := dg } := by
  simp only [APP_timer, hinit, hlock, if_true, Bool.not_false, APP_timer_loop_spec]
  split_ifs
  · exact ⟨true, rfl⟩
  · exact ⟨app.dirty_gpio, rfl⟩

theorem pins_trigger_step_frame (app : App) (pin : Nat) :
    ∃ ps, pins_trigger_step app pin = { app with pin_state := ps } := by
  simp only [pins_trigger_step, app_trigger_pin]
  split_ifs <;> exact ⟨_, rfl⟩

theorem pins_trigger_fold_frame (l : List Nat) (app : App) :
    ∃ ps, l.foldl pins_trigger_step app = { app with pin_state := ps } := by
  induction l generalizing app with
  | nil => exact ⟨app.pin_state, rfl⟩
  | cons x xs ih =>
    obtain ⟨ps1, h1⟩ := pins_trigger_step_frame app x
    obtain ⟨ps2, h2⟩ := ih (pins_trigger_step app x)
    refine ⟨ps2, ?_⟩
    rw [List.foldl_cons, h2, h1]

theorem pins_trigger_all_frame (P : Platform) (app : App) :
    ∃ ps, pins_trigger_all P app = { app with pin_state := ps } :=
  pins_trigger_fold_frame _ app

theorem sampler_view_send_kb (P : Platform) (app : App) :
    sampler_view (app_send_kb_report P app) = sampler_view app := by
  simp only [app_send_kb_report, USB_ARC_KB_tx, sampler_view]
  split_ifs <;> rfl

theorem sampler_view_check_mouse (P : Platform) (app : App) :
    sampler_view (app_check_mouse_levels P app).1 = sampler_view app := by
  simp only [app_check_mouse_levels, sampler_view]
  split_ifs <;> rfl

theorem sampler_view_send_mouse (app : App) (ms : mouse_state) :
    sampler_view (app_send_mouse_report app ms) = sampler_view app := rfl

theorem sampler_view_trigger (P : Platform) (app : App) :
    sampler_view (pins_trigger_all P app) = sampler_view app := by
  obtain ⟨ps, hps⟩ := pins_trigger_all_frame P app
  rw [hps]; rfl

theorem lock_send_kb (P : Platform) (app : App) :
    (app_send_kb_report P app).lock_gpio_sampling = app.lock_gpio_sampling := by
  simp only [app_send_kb_report, USB_ARC_KB_tx]
  split_ifs <;> rfl

theorem lock_check_mouse (P : Platform) (app : App) :
    (app_check_mouse_levels P app).1.lock_gpio_sampling = app.lock_gpio_sampling := by
  simp only [app_check_mouse_levels]
  split_ifs <;> rfl

theorem sampler_view_update_trigger (P : Platform) (app : App) :
    sampler_view (pins_update_trigger P app) = sampler_view app := by
  obtain ⟨ps, hps⟩ := pins_trigger_all_frame P { app with lock_gpio_sampling := true }
  simp only [pins_update_trigger, hps]; rfl

theorem sampler_view_update_kb (P : Platform) (k : Bool) (app : App) :
    sampler_view (pins_update_kb P k app) = sampler_view app := by
  simp only [pins_update_kb]
  split_ifs
  · rw [sampler_view_send_kb]; rfl
  · rfl

theorem sampler_view_update_mouse (P : Platform) (m : Bool) (app : App) :
    sampler_view (pins_update_mouse P m app) = sampler_view app := by
  have h := sampler_view_check_mouse P app
  simp only [pins_update_mouse]
  split_ifs
  · rw [sampler_view_send_mouse]; exact h
  · exact h
  · exact h

/-- What `app_pins_update` leaves alone: the sampler's tables and the
configuration. -/
theorem app_pins_update_view (P : Platform) (k m : Bool) (app : App) :
    sampler_view (app_pins_update P k m app) = sampler_view app := by
  have h : ∀ a, sampler_view (pins_update_states a) = sampler_view a := fun _ => rfl
  rw [app_pins_update, h, sampler_view_update_mouse, sampler_view_update_kb,
    sampler_view_update_trigger]

/-- `app_pins_update` releases the sampling lock. -/
theorem app_pins_update_lock (P : Platform) (k m : Bool) (app : App) :
    (app_pins_update P k m app).lock_gpio_sampling = false := by
  obtain ⟨ps, hps⟩ := pins_trigger_all_frame P { app with lock_gpio_sampling := true }
  have h1 : (pins_update_trigger P app).lock_gpio_sampling = false := rfl
  have h2 : (pins_update_kb P k (pins_update_trigger P app)).lock_gpio_sampling = false := by
    simp only [pins_update_kb]
    split_ifs
    · rw [lock_send_kb]; exact h1
    · exact h1
  have h3 : ∀ a, (pins_update_mouse P m a).lock_gpio_sampling = a.lock_gpio_sampling := by
    intro a
    have h := lock_check_mouse P a
    simp only [pins_update_mouse]
    split_ifs
    · exact h
    · exact h
    · exact h
  show (pins_update_mouse P m _).lock_gpio_sampling = false
  rw [h3, h2]

/-! ## The debouncer along a run of ticks -/

/-- The sampler's part of one tick: every pin is debounced with its own
sample, the threshold stays, sampling stays enabled. -/
theorem tick_sampler (P : Platform) (k m : Bool) (raw : Nat → Bool) (app : App)
    (hinit : app.app_init = true) (hlock : app.lock_gpio_sampling = false) :
    (tick P k m app raw).irq_debounce_map = (debounce_all P.APP_CONFIG_PINS raw app).irq_debounce_map ∧
    (tick P k m app raw).irq_cur_pin_active
      = (debounce_all P.APP_CONFIG_PINS raw app).irq_cur_pin_active ∧
    (tick P k m app raw).debounce_valid_cycles = app.debounce_valid_cycles ∧
    (tick P k m app raw).app_init = true ∧
    (tick P k m app raw).lock_gpio_sampling = false := by
  obtain ⟨dg, hdg⟩ := APP_timer_spec P raw app hinit hlock
  simp only [tick, app_pins_dirty_msg]
  split_ifs
  · have hv := app_pins_update_view P k m (APP_timer P raw app).1
    have hl := app_pins_update_lock P k m (APP_timer P raw app).1
    simp only [sampler_view, Prod.mk.injEq] at hv
    obtain ⟨h1, h2, h3, h4, -, -⟩ := hv
    rw [h1, h2, h3, h4, hl, hdg]
    exact ⟨rfl, rfl, rfl, hinit, rfl⟩
  · rw [hdg]
    exact ⟨rfl, rfl, rfl, hinit, hlock⟩

theorem debounce_next_inv (cycles : Nat) (hist : List Bool) (db : pin_debounce) (cur raw : Bool)
    (h : debounce_inv hist db cur) :
    debounce_inv (raw :: hist) (debounce_next cycles db cur raw).1
      (debounce_next cycles db cur raw).2 := by
  have key : ∀ n, n ≤ db.same_state + 1 → raw = db.pin_active →
      hist.take (db.same_state + 1) = List.replicate (db.same_state + 1) db.pin_active →
      (raw :: hist).take (n + 1) = List.replicate (n + 1) db.pin_active := by
    intro n hn hr hh
    have h1 : hist.take n = List.replicate n db.pin_active := by
      have : hist.take n = (hist.take (db.same_state + 1)).take n := by
        rw [List.take_take, Nat.min_eq_left hn]
      rw [this, hh, List.take_replicate, Nat.min_eq_left hn]
    rw [List.take_succ_cons, h1, hr, List.replicate_succ]
  unfold debounce_next
  split_ifs with h1 h2
  · rcases h with h | ⟨ha, hc⟩
    · left
      exact key _ (Nat.mod_le _ _) h1 h
    · right
      exact ⟨ha, hc⟩
  · rcases h with h | ⟨ha, hc⟩
    · left
      exact key _ (Nat.le_succ _) h1 h
    · right
      exact ⟨ha, by rw [h1, ha]⟩
  · left
    simp

/-- Along every run of ticks from a state in which sampling is enabled, the
debounce invariant of a pin that starts with inactive levels is kept, and the
threshold and the enabling flags do not change. -/
theorem run_ticks_inv (P : Platform) (app0 : App) (pin : Nat)
    (hinit : app0.app_init = true) (hlock : app0.lock_gpio_sampling = false)
    (hpin : pin < P.APP_CONFIG_PINS)
    (hpa : (app0.irq_debounce_map pin).pin_active = false)
    (hcur : app0.irq_cur_pin_active pin = false) (pre : List tick_input) :
    (run_ticks P app0 pre).app_init = true ∧
    (run_ticks P app0 pre).lock_gpio_sampling = false ∧
    (run_ticks P app0 pre).debounce_valid_cycles = app0.debounce_valid_cycles ∧
    debounce_inv (pre.reverse.map (fun e => e.raw pin))
      ((run_ticks P app0 pre).irq_debounce_map pin)
      ((run_ticks P app0 pre).irq_cur_pin_active pin) := by
  induction pre using List.reverseRecOn with
  | nil => exact ⟨hinit, hlock, rfl, Or.inr ⟨hpa, hcur⟩⟩
  | append_singleton xs e ih =>
    obtain ⟨i1, i2, i3, i4⟩ := ih
    have hrun : run_ticks P app0 (xs ++ [e])
        = tick P e.kb_can_tx e.mouse_can_tx (run_ticks P app0 xs) e.raw := by
      simp [run_ticks, List.foldl_append]
    obtain ⟨t1, t2, t3, t4, t5⟩ :=
      tick_sampler P e.kb_can_tx e.mouse_can_tx e.raw (run_ticks P app0 xs) i1 i2
    rw [hrun, t1, t2, t3]
    refine ⟨t4, t5, i3, ?_⟩
    simp only [debounce_all, hpin, if_true, List.reverse_append, List.reverse_cons,
      List.reverse_nil, List.nil_append, List.singleton_append, List.map_cons]
    exact debounce_next_inv _ _ _ _ _ i4

/-- C1 (debounce stability). Along every run of sampling ticks with a fixed
threshold, started with sampling enabled and the pin's levels inactive as
after `APP_init`: if the call of `APP_timer` with the samples `raw` changes
the confirmed level of the pin, then the new confirmed level is the sample of
this tick and the samples of the `debounce_valid_cycles` preceding ticks
exist and all equal it; and a sample that differs from the last sampled level
sets `same_state` to 0 and leaves the confirmed level unchanged. -/
theorem debounce_stability (P : Platform) (app0 : App) (pin : Nat) (pre : List tick_input)
    (raw : Nat → Bool)
    (hinit : app0.app_init = true) (hlock : app0.lock_gpio_sampling = false)
    (hpin : pin < P.APP_CONFIG_PINS)
    (hpa : (app0.irq_debounce_map pin).pin_active = false)
    (hcur : app0.irq_cur_pin_active pin = false) :
    ((APP_timer P raw (run_ticks P app0 pre)).1.irq_cur_pin_active pin
        ≠ (run_ticks P app0 pre).irq_cur_pin_active pin →
      (APP_timer P raw (run_ticks P app0 pre)).1.irq_cur_pin_active pin = raw pin ∧
      app0.debounce_valid_cycles ≤ pre.length ∧
      ∀ x ∈ pre.reverse.take app0.debounce_valid_cycles, x.raw pin = raw pin) ∧
    (raw pin ≠ ((run_ticks P app0 pre).irq_debounce_map pin).pin_active →
      ((APP_timer P raw (run_ticks P app0 pre)).1.irq_debounce_map pin).same_state = 0 ∧
      (APP_timer P raw (run_ticks P app0 pre)).1.irq_cur_pin_active pin
        = (run_ticks P app0 pre).irq_cur_pin_active pin) := by
  obtain ⟨i1, i2, i3, i4⟩ := run_ticks_inv P app0 pin hinit hlock hpin hpa hcur pre
  obtain ⟨dg, hdg⟩ := APP_timer_spec P raw (run_ticks P app0 pre) i1 i2
  rw [hdg]
  simp only [debounce_all, hpin, if_true, i3]
  generalize (run_ticks P app0 pre).irq_debounce_map pin = db at i4 ⊢
  generalize (run_ticks P app0 pre).irq_cur_pin_active pin = cur at i4 ⊢
  unfold debounce_next
  constructor
  · intro hch
    split_ifs at hch ⊢ with h1 h2
    · exact absurd rfl hch
    · rcases i4 with h | ⟨ha, hc⟩
      · refine ⟨rfl, ?_, ?_⟩
        · have hl := congrArg List.length h
          simp only [List.length_take, List.length_replicate, List.length_map,
            List.length_reverse] at hl
          omega
        · intro x hx
          have hsub : x.raw pin ∈ (List.map (fun e => e.raw pin) pre.reverse).take
              (db.same_state + 1) := by
            rw [← List.map_take]
            refine List.mem_map_of_mem _ ?_
            exact List.take_subset_take_left _ (by omega) hx
          rw [h] at hsub
          rw [List.eq_of_mem_replicate hsub, h1]
      · exfalso
        apply hch
        simp only []
        rw [h1, ha, hc]
    · exact absurd rfl hch
  · intro hne
    rw [if_neg hne]
    exact ⟨rfl, rfl⟩

/-- Witness for C1 on the board build: after `APP_init` (threshold 8) pin 1 is
sampled active on ten ticks in a row; the tenth call of `APP_timer` changes
its confirmed level, and the nine ticks before it all sampled it active. -/
theorem debounce_stability_witness :
    (run_ticks board (APP_init board) (List.replicate 9 (sample [0]))).irq_cur_pin_active 0
      = false ∧
    (APP_timer board (sample [0]).raw
      (run_ticks board (APP_init board) (List.replicate 9 (sample [0])))).1.irq_cur_pin_active 0
      = true ∧
    (APP_init board).debounce_valid_cycles ≤ (List.replicate 9 (sample [0])).length ∧
    ∀ x ∈ (List.replicate 9 (sample [0])).reverse.take (APP_init board).debounce_valid_cycles,
      x.raw 0 = (sample [0]).raw 0 :=
  have h := debounce_stability board (APP_init board) 0 (List.replicate 9 (sample [0]))
    (sample [0]).raw rfl rfl (by decide) rfl rfl
  have hch : (APP_timer board (sample [0]).raw
      (run_ticks board (APP_init board) (List.replicate 9 (sample [0])))).1.irq_cur_pin_active 0
      ≠ (run_ticks board (APP_init board) (List.replicate 9 (sample [0]))).irq_cur_pin_active 0 := by
    decide!
  ⟨by decide!, by decide!, (h.1 hch).2⟩

/-! ## C2: thresholds the 7-bit counter cannot reach -/

/-- With a threshold of 128 or more the counter `same_state`, which wraps
from 127 to 0, never reaches the threshold: along every run of ticks the
confirmed level of a pin never becomes active, whatever is sampled. -/
theorem confirmed_never_changes_of_large_threshold (P : Platform) (app0 : App) (pin : Nat)
    (hinit : app0.app_init = true) (hlock : app0.lock_gpio_sampling = false)
    (hcyc : 128 ≤ app0.debounce_valid_cycles)
    (hss : (app0.irq_debounce_map pin).same_state < 128)
    (hcur : app0.irq_cur_pin_active pin = false) (pre : List tick_input) :
    (run_ticks P app0 pre).irq_cur_pin_active pin = false := by
  suffices h : (run_ticks P app0 pre).app_init = true ∧
      (run_ticks P app0 pre).lock_gpio_sampling = false ∧
      (run_ticks P app0 pre).debounce_valid_cycles = app0.debounce_valid_cycles ∧
      ((run_ticks P app0 pre).irq_debounce_map pin).same_state < 128 ∧
      (run_ticks P app0 pre).irq_cur_pin_active pin = false from h.2.2.2.2
  induction pre using List.reverseRecOn with
  | nil => exact ⟨hinit, hlock, rfl, hss, hcur⟩
  | append_singleton xs e ih =>
    obtain ⟨i1, i2, i3, i4, i5⟩ := ih
    have hrun : run_ticks P app0 (xs ++ [e])
        = tick P e.kb_can_tx e.mouse_can_tx (run_ticks P app0 xs) e.raw := by
      simp [run_ticks, List.foldl_append]
    obtain ⟨t1, t2, t3, t4, t5⟩ :=
      tick_sampler P e.kb_can_tx e.mouse_can_tx e.raw (run_ticks P app0 xs) i1 i2
    rw [hrun, t1, t2, t3]
    refine ⟨t4, t5, i3, ?_, ?_⟩
    · simp only [debounce_all, debounce_next]
      split_ifs
      · exact Nat.mod_lt _ (by decide)
      · exact i4
      · exact Nat.zero_lt_succ _
      · exact i4
    · simp only [debounce_all, debounce_next]
      split_ifs with h1 h2 h3
      · exact i5
      · omega
      · exact i5
      · exact i5

theorem debounce_next_progress (c k : Nat) (db : pin_debounce) (cur L : Bool) (hc : c ≤ 127)
    (h : k = 0 ∨ (db.pin_active = L ∧ (cur = L ∨ (k - 1 ≤ db.same_state ∧ db.same_state ≤ c)))) :
    (debounce_next c db cur L).1.pin_active = L ∧
    ((debounce_next c db cur L).2 = L ∨
      (k ≤ (debounce_next c db cur L).1.same_state ∧
        (debounce_next c db cur L).1.same_state ≤ c)) := by
  unfold debounce_next
  split_ifs with h1 h2
  · have hm : (db.same_state + 1) % 128 = db.same_state + 1 := Nat.mod_eq_of_lt (by omega)
    refine ⟨h1.symm, ?_⟩
    simp only [hm]
    rcases h with h | ⟨_, h | h⟩
    · right; omega
    · left; exact h
    · right; omega
  · exact ⟨h1.symm, Or.inl rfl⟩
  · rcases h with h | ⟨h, _⟩
    · exact ⟨rfl, Or.inr ⟨by simp only []; omega, Nat.zero_le _⟩⟩
    · exact absurd h.symm h1

/-- For a threshold of at most 127 the claim of C2 holds: from every record
with sampling enabled, `debounce_valid_cycles + 2` (or more) ticks in a row
that sample a pin at the level `L` leave its confirmed level at `L`. -/
theorem confirmed_after_enough_samples (P : Platform) (app : App) (pin : Nat) (L : Bool)
    (evs : List tick_input)
    (hinit : app.app_init = true) (hlock : app.lock_gpio_sampling = false)
    (hpin : pin < P.APP_CONFIG_PINS) (hc : app.debounce_valid_cycles ≤ 127)
    (hraw : ∀ e ∈ evs, e.raw pin = L) (hlen : app.debounce_valid_cycles + 2 ≤ evs.length) :
    (run_ticks P app evs).irq_cur_pin_active pin = L := by
  suffices h : (run_ticks P app evs).app_init = true ∧
      (run_ticks P app evs).lock_gpio_sampling = false ∧
      (run_ticks P app evs).debounce_valid_cycles = app.debounce_valid_cycles ∧
      (evs.length = 0 ∨
        (((run_ticks P app evs).irq_debounce_map pin).pin_active = L ∧
          ((run_ticks P app evs).irq_cur_pin_active pin = L ∨
            (evs.length - 1 ≤ ((run_ticks P app evs).irq_debounce_map pin).same_state ∧
              ((run_ticks P app evs).irq_debounce_map pin).same_state
                ≤ app.debounce_valid_cycles)))) by
    rcases h.2.2.2 with h0 | ⟨_, h1 | h1⟩
    · omega
    · exact h1
    · omega
  clear hlen
  induction evs using List.reverseRecOn with
  | nil => exact ⟨hinit, hlock, rfl, Or.inl rfl⟩
  | append_singleton xs e ih =>
    obtain ⟨i1, i2, i3, i4⟩ := ih (fun x hx => hraw x (List.mem_append_left _ hx))
    have hrun : run_ticks P app (xs ++ [e])
        = tick P e.kb_can_tx e.mouse_can_tx (run_ticks P app xs) e.raw := by
      simp [run_ticks, List.foldl_append]
    obtain ⟨t1, t2, t3, t4, t5⟩ :=
      tick_sampler P e.kb_can_tx e.mouse_can_tx e.raw (run_ticks P app xs) i1 i2
    have he : e.raw pin = L := hraw e (List.mem_append_right _ (List.mem_singleton_self e))
    rw [hrun, t1, t2, t3]
    refine ⟨t4, t5, i3, Or.inr ?_⟩
    simp only [debounce_all, hpin, if_true, i3, he, List.length_append, List.length_singleton,
      Nat.add_sub_cancel]
    exact debounce_next_progress _ xs.length _ _ L hc i4

/-- C2 at the failing input: on the board build, after `APP_init` and
`APP_cfg_set_debounce_cycles(128)`, pin 1 is sampled active on 130 ticks in a
row (`debounce_valid_cycles + 2`); its confirmed level is still inactive and
the counter has wrapped around. -/
theorem debounce_threshold_128_not_confirmed :
    (run_ticks board (APP_cfg_set_debounce_cycles 128 (APP_init board))
      (List.replicate 130 (sample [0]))).irq_cur_pin_active 0 = false ∧
    ((run_ticks board (APP_cfg_set_debounce_cycles 128 (APP_init board))
      (List.replicate 129 (sample [0]))).irq_debounce_map 0).same_state = 0 := by
  decide!

/-! ## The activation pass -/

theorem pins_trigger_step_spec (app : App) (pin : Nat) (hpin : pin < 256) :
    pins_trigger_step app pin
      = { app with pin_state := tset app.pin_state pin (activation_rule app pin) } := by
  have hmod : pin % 256 = pin := Nat.mod_eq_of_lt hpin
  simp only [pins_trigger_step, app_trigger_pin, activation_rule, hmod]
  split_ifs <;> simp_all [tset_self]

theorem pins_trigger_fold_spec (l : List Nat) (hl : ∀ x ∈ l, x < 256) (hnd : l.Nodup)
    (app : App) :
    l.foldl pins_trigger_step app
      = { app with pin_state := fun q =>
            if q ∈ l then activation_rule app q else app.pin_state q } := by
  induction l generalizing app with
  | nil => simp
  | cons x xs ih =>
    have hx : x < 256 := hl x (List.mem_cons_self _ _)
    have hxs : ∀ y ∈ xs, y < 256 := fun y hy => hl y (List.mem_cons_of_mem _ hy)
    obtain ⟨hxn, hnd'⟩ := List.nodup_cons.mp hnd
    rw [List.foldl_cons, ih hxs hnd', pins_trigger_step_spec app x hx]
    congr 1
    funext q
    by_cases hq : q = x
    · subst hq
      simp [hxn, tset]
    · by_cases hm : q ∈ xs
      · simp [hq, hm, activation_rule, tset]
      · simp [hq, hm, tset]

/-- The activation pass gives every pin below `APP_CONFIG_PINS` the state of
the activation rule and changes nothing else. -/
theorem pins_trigger_all_spec (P : Platform) (hN : P.APP_CONFIG_PINS ≤ 256) (app : App) :
    pins_trigger_all P app
      = { app with pin_state := fun q =>
            if q < P.APP_CONFIG_PINS then activation_rule app q else app.pin_state q } := by
  have h := pins_trigger_fold_spec (List.range P.APP_CONFIG_PINS)
    (fun x hx => lt_of_lt_of_le (List.mem_range.mp hx) hN) (List.nodup_range _) app
  simp only [List.mem_range] at h
  exact h

theorem pin_state_send_kb (P : Platform) (app : App) :
    (app_send_kb_report P app).pin_state = app.pin_state := by
  simp only [app_send_kb_report, USB_ARC_KB_tx]
  split_ifs <;> rfl

theorem pin_state_check_mouse (P : Platform) (app : App) :
    (app_check_mouse_levels P app).1.pin_state = app.pin_state := by
  simp only [app_check_mouse_levels]
  split_ifs <;> rfl

theorem pin_state_update_kb (P : Platform) (k : Bool) (app : App) :
    (pins_update_kb P k app).pin_state = app.pin_state := by
  simp only [pins_update_kb]
  split_ifs
  · rw [pin_state_send_kb]
  · rfl

theorem pin_state_update_mouse (P : Platform) (m : Bool) (app : App) :
    (pins_update_mouse P m app).pin_state = app.pin_state := by
  have h := pin_state_check_mouse P app
  simp only [pins_update_mouse]
  split_ifs
  · exact h
  · exact h
  · exact h

/-- The pin states after `app_pins_update` are those of the activation pass. -/
theorem app_pins_update_pin_state (P : Platform) (hN : P.APP_CONFIG_PINS ≤ 256) (k m : Bool)
    (app : App) (pin : Nat) :
    (app_pins_update P k m app).pin_state pin
      = if pin < P.APP_CONFIG_PINS then activation_rule app pin else app.pin_state pin := by
  have h1 : (app_pins_update P k m app).pin_state = (pins_update_trigger P app).pin_state := by
    show (pins_update_mouse P m _).pin_state = _
    rw [pin_state_update_mouse, pin_state_update_kb]
  rw [h1]
  simp only [pins_update_trigger, pins_trigger_all_spec P hN]
  rfl

/-- C10 (pin activation rule). With at most 256 pins (the pin index is passed
to `app_trigger_pin` as a `u8_t`), for every pin below `APP_CONFIG_PINS`:
if its stored state is inactive and its confirmed level active, its state
after `app_pins_update` is `PIN_ACTIVE_TERN` when `tern_pin > 0` and the
confirmed level of pin `tern_pin` is active, and `PIN_ACTIVE` otherwise; if
its stored state is not inactive and its confirmed level inactive, the state
is `PIN_INACTIVE`; in every other case the state is unchanged. -/
theorem pin_activation_rule (P : Platform) (k m : Bool) (app : App) (pin : Nat)
    (hN : P.APP_CONFIG_PINS ≤ 256) (hpin : pin < P.APP_CONFIG_PINS) :
    (app.pin_state pin = app_pin_state.PIN_INACTIVE ∧ app.irq_cur_pin_active pin = true →
      (app_pins_update P k m app).pin_state pin
        = if (app.pin_config pin).tern_pin > 0 ∧
              app.irq_cur_pin_active ((app.pin_config pin).tern_pin - 1) = true
          then app_pin_state.PIN_ACTIVE_TERN else app_pin_state.PIN_ACTIVE) ∧
    (app.pin_state pin ≠ app_pin_state.PIN_INACTIVE ∧ app.irq_cur_pin_active pin = false →
      (app_pins_update P k m app).pin_state pin = app_pin_state.PIN_INACTIVE) ∧
    (¬ (app.pin_state pin = app_pin_state.PIN_INACTIVE ∧ app.irq_cur_pin_active pin = true) →
      ¬ (app.pin_state pin ≠ app_pin_state.PIN_INACTIVE ∧ app.irq_cur_pin_active pin = false) →
      (app_pins_update P k m app).pin_state pin = app.pin_state pin) := by
  rw [app_pins_update_pin_state P hN, if_pos hpin]
  refine ⟨?_, ?_, ?_⟩
  · intro h
    simp only [activation_rule, if_pos h]
  · intro h
    have h' : ¬ (app.pin_state pin = app_pin_state.PIN_INACTIVE ∧
        app.irq_cur_pin_active pin = true) := fun hh => h.1 hh.1
    simp only [activation_rule, if_neg h', if_pos h]
  · intro h1 h2
    simp only [activation_rule, if_neg h1, if_neg h2]

/-- Witness for C10 on the board build: in `activation_example` the gated
pin 2 becomes `PIN_ACTIVE_TERN`, pin 1 becomes `PIN_ACTIVE`, pin 4 becomes
`PIN_INACTIVE` and pin 3 stays `PIN_ACTIVE`. -/
theorem pin_activation_rule_witness :
    (app_pins_update board true true activation_example).pin_state 1
      = app_pin_state.PIN_ACTIVE_TERN ∧
    (app_pins_update board true true activation_example).pin_state 0
      = app_pin_state.PIN_ACTIVE ∧
    (app_pins_update board true true activation_example).pin_state 3
      = app_pin_state.PIN_INACTIVE ∧
    (app_pins_update board true true activation_example).pin_state 2
      = app_pin_state.PIN_ACTIVE :=
  ⟨((pin_activation_rule board true true activation_example 1 (by decide) (by decide)).1
      (by decide)).trans (by decide),
   ((pin_activation_rule board true true activation_example 0 (by decide) (by decide)).1
      (by decide)).trans (by decide),
   (pin_activation_rule board true true activation_example 3 (by decide) (by decide)).2.1
      (by decide),
   ((pin_activation_rule board true true activation_example 2 (by decide) (by decide)).2.2
      (by decide) (by decide)).trans (by decide)⟩

/-! ## C4: the keyboard link-ready notification -/

/-- The callback `app_kb_ready_irq` looks at `dirty_gpio`, not at `dirty_kb`:
whenever `dirty_gpio` is clear the notification does nothing at all. -/
theorem kb_ready_notification_noop (P : Platform) (app : App) (h : app.dirty_gpio = false) :
    kb_ready_notification P app = app := by
  simp [kb_ready_notification, app_kb_ready_irq, h]

/-- C4 at the failing input: in `kb_pending_example` a keyboard report is
pending (`dirty_kb` set, nothing transmitted, `dirty_gpio` cleared by
`app_pins_update`). The keyboard link-ready notification transmits nothing
and leaves `dirty_kb` set, although the task `app_kb_usb_ready_msg` run on
the same record would transmit the report with keymap `[4,0,0,0,0,0]`. -/
theorem kb_ready_notification_keeps_pending :
    kb_pending_example.dirty_kb = true ∧
    kb_pending_example.dirty_gpio = false ∧
    kb_pending_example.kb_sent = [] ∧
    (kb_ready_notification board kb_pending_example).kb_sent = [] ∧
    (kb_ready_notification board kb_pending_example).dirty_kb = true ∧
    (app_kb_usb_ready_msg board kb_pending_example).kb_sent
      = [{ modifiers := 0, reserved := 0, keymap := [4, 0, 0, 0, 0, 0] }] ∧
    (app_kb_usb_ready_msg board kb_pending_example).dirty_kb = false := by
  decide!

/-! ## C5: configuration round trip -/

/-- C5 as stated fails: after `APP_init` and `APP_cfg_set_pin` of the
single-key configuration of pin 1, `APP_cfg_get_pin(1)` returns the entry of
pin 2, whose definition list is empty. -/
theorem cfg_get_pin_one_based_counterexample :
    (APP_cfg_get_pin (APP_cfg_set_pin board (single_key_config 1 4) (APP_init board)) 1).id 0
      ≠ (single_key_config 1 4).id 0 := by
  decide

/-- C5 amended. On a build with at most 256 pins (the parameter of
`APP_cfg_get_pin` is a `u8_t`), for every pin number `p = cfg.pin` in
`1..APP_CONFIG_PINS`, after `APP_cfg_set_pin(&cfg)` the call
`APP_cfg_get_pin(p - 1)`, with the 0-based index of the pin (which lies in
the table and fits the parameter), returns a configuration equal to `cfg`. -/
theorem cfg_set_get_pin_zero_based (P : Platform) (app : App) (cfg : def_config)
    (hN : P.APP_CONFIG_PINS ≤ 256)
    (h1 : 1 ≤ cfg.pin) (h2 : cfg.pin ≤ P.APP_CONFIG_PINS) :
    cfg.pin - 1 < P.APP_CONFIG_PINS ∧
    (cfg.pin - 1) % 256 = cfg.pin - 1 ∧
    APP_cfg_get_pin (APP_cfg_set_pin P cfg app) (cfg.pin - 1) = cfg := by
  have hlt : cfg.pin - 1 < 256 := by omega
  refine ⟨by omega, Nat.mod_eq_of_lt hlt, ?_⟩
  simp [APP_cfg_get_pin, APP_cfg_set_pin, tset, Nat.mod_eq_of_lt hlt]

/-- Witness for C5 amended on the board build, pin number 1. -/
theorem cfg_set_get_pin_zero_based_witness :
    APP_cfg_get_pin (APP_cfg_set_pin board (single_key_config 1 4) (APP_init board)) 0
      = single_key_config 1 4 :=
  (cfg_set_get_pin_zero_based board (APP_init board) (single_key_config 1 4)
    (by decide) (by decide) (by decide)).2.2

/-! ## C8: keyboard idempotence -/

theorem kb_def_step_reserved (P : Platform) (st : kb_build) (d : hid_id) :
    (kb_def_step P st d).report.reserved = st.report.reserved := by
  unfold kb_def_step
  split_ifs
  · rfl
  · cases d with
    | none => rfl
    | mouse c sg dt ac => rfl
    | kb code =>
      simp only []
      split_ifs <;> rfl

theorem kb_defs_fold_reserved (P : Platform) (f : Nat → hid_id) (l : List Nat) (st : kb_build) :
    (l.foldl (fun acc d => kb_def_step P acc (f d)) st).report.reserved
      = st.report.reserved := by
  induction l generalizing st with
  | nil => rfl
  | cons x xs ih => rw [List.foldl_cons, ih, kb_def_step_reserved]

theorem kb_pin_step_reserved (P : Platform) (app : App) (st : kb_build) (pin : Nat) :
    (kb_pin_step P app st pin).report.reserved = st.report.reserved := by
  unfold kb_pin_step
  split_ifs
  · rfl
  · exact kb_defs_fold_reserved P _ _ st
  · rfl

/-- The reserved byte of the report built by `app_send_kb_report` is 0. -/
theorem kb_build_report_reserved (P : Platform) (app : App) :
    (kb_build_report P app).report.reserved = 0 := by
  unfold kb_build_report
  generalize hst : ({ report := kb_report_zero P, report_ix := 0 } : kb_build) = st
  have h0 : st.report.reserved = 0 := by rw [← hst]; rfl
  clear hst
  generalize List.range P.APP_CONFIG_PINS = l
  induction l generalizing st with
  | nil => exact h0
  | cons x xs ih =>
    rw [List.foldl_cons]
    exact ih _ (by rw [kb_pin_step_reserved]; exact h0)

/-- The report that is built depends on the pin states and the pin
configuration only. -/
theorem kb_build_report_congr (P : Platform) (a b : App)
    (hs : a.pin_state = b.pin_state) (hc : a.pin_config = b.pin_config) :
    kb_build_report P a = kb_build_report P b := by
  have h : kb_pin_step P a = kb_pin_step P b := by
    funext st pin
    simp only [kb_pin_step, app_get_def_boundary, hs, hc]
  simp only [kb_build_report, h]

theorem send_kb_report_fields (P : Platform) (app : App) :
    (app_send_kb_report P app).pin_state = app.pin_state ∧
    (app_send_kb_report P app).pin_config = app.pin_config ∧
    (app_send_kb_report P app).kb_report_prev = (kb_build_report P app).report ∧
    (app_send_kb_report P app).dirty_kb = false ∧
    (app_send_kb_report P app).kb_sent
      = if (kb_build_report P app).report = app.kb_report_prev then app.kb_sent
        else app.kb_sent ++ [(kb_build_report P app).report] := by
  have hr := kb_build_report_reserved P app
  have heq : ({ (kb_build_report P app).report with reserved := 0 } : usb_kb_report)
      = (kb_build_report P app).report := by
    rw [← hr]
  simp only [app_send_kb_report, USB_ARC_KB_tx, heq]
  by_cases hd : (kb_build_report P app).report = app.kb_report_prev
  · simp [hd]
  · simp [hd]

/-- C8 (keyboard idempotence). For every record, running `app_send_kb_report`
twice in a row builds the same report both times, the second run transmits
nothing, and after either run `kb_report_prev` is the built report and
`dirty_kb` is false. -/
theorem kb_report_idempotent (P : Platform) (app : App) :
    (kb_build_report P (app_send_kb_report P app)).report = (kb_build_report P app).report ∧
    (app_send_kb_report P (app_send_kb_report P app)).kb_sent
      = (app_send_kb_report P app).kb_sent ∧
    (app_send_kb_report P app).kb_report_prev = (kb_build_report P app).report ∧
    (app_send_kb_report P app).dirty_kb = false ∧
    (app_send_kb_report P (app_send_kb_report P app)).kb_report_prev
      = (kb_build_report P app).report ∧
    (app_send_kb_report P (app_send_kb_report P app)).dirty_kb = false := by
  obtain ⟨f1, f2, f3, f4, -⟩ := send_kb_report_fields P app
  obtain ⟨-, -, g3, g4, g5⟩ := send_kb_report_fields P (app_send_kb_report P app)
  have hb : kb_build_report P (app_send_kb_report P app) = kb_build_report P app :=
    kb_build_report_congr P _ _ f1 f2
  rw [hb] at g3 g5
  refine ⟨by rw [hb], ?_, f3, f4, g3, g4⟩
  rw [g5, f3, if_pos rfl]

/-! ## The keyboard scan as one pass over the scanned definitions -/

theorem kb_def_step_full (P : Platform) (st : kb_build) (d : hid_id)
    (h : P.USB_KB_REPORT_KEYMAP_SIZE ≤ st.report_ix) : kb_def_step P st d = st := by
  simp [kb_def_step, h]

theorem kb_defs_fold_full (P : Platform) (l : List hid_id) (st : kb_build)
    (h : P.USB_KB_REPORT_KEYMAP_SIZE ≤ st.report_ix) :
    l.foldl (kb_def_step P) st = st := by
  induction l with
  | nil => rfl
  | cons x xs ih => rw [List.foldl_cons, kb_def_step_full P st x h, ih]

theorem kb_pin_step_eq (P : Platform) (app : App) (st : kb_build) (pin : Nat) :
    kb_pin_step P app st pin
      = (if app.pin_state pin = app_pin_state.PIN_INACTIVE then []
          else (def_range (app_get_def_boundary P app pin)).map (app.pin_config pin).id).foldl
        (kb_def_step P) st := by
  unfold kb_pin_step
  by_cases hfull : st.report_ix < P.USB_KB_REPORT_KEYMAP_SIZE
  · rw [if_pos hfull]
    split_ifs
    · rfl
    · rw [List.foldl_map]
  · rw [if_neg hfull, kb_defs_fold_full P _ st (Nat.le_of_not_lt hfull)]

theorem kb_pins_fold_eq (P : Platform) (app : App) (l : List Nat) (st : kb_build) :
    l.foldl (kb_pin_step P app) st
      = (l.flatMap (fun pin =>
          if app.pin_state pin = app_pin_state.PIN_INACTIVE then []
          else (def_range (app_get_def_boundary P app pin)).map (app.pin_config pin).id)).foldl
        (kb_def_step P) st := by
  induction l generalizing st with
  | nil => rfl
  | cons x xs ih =>
    rw [List.foldl_cons, ih, kb_pin_step_eq, List.flatMap_cons, List.foldl_append]

/-- The two nested loops of `app_send_kb_report` are one pass of the loop
body over the scanned definitions. -/
theorem kb_build_report_eq (P : Platform) (app : App) :
    kb_build_report P app
      = (kb_scanned P app).foldl (kb_def_step P)
          { report := kb_report_zero P, report_ix := 0 } :=
  kb_pins_fold_eq P app _ _

/-- The dedup scan ends beyond `report_ix` exactly when the keycode is in
none of the slots `i .. report_ix - 1` (it may stop at the empty slot
`report_ix` itself, which also ends beyond `report_ix`). -/
theorem kb_dedup_scan_spec (keymap : List Nat) (report_ix kb_code : Nat) :
    ∀ (fuel i : Nat), i ≤ report_ix + 1 → report_ix + 2 ≤ fuel + i →
      (report_ix < kb_dedup_scan fuel keymap report_ix kb_code i ↔
        ∀ j, i ≤ j → j < report_ix → keymap.getD j 0 ≠ kb_code) := by
  intro fuel
  induction fuel with
  | zero => intro i h1 h2; omega
  | succ n ih =>
    intro i h1 h2
    unfold kb_dedup_scan
    by_cases hi : i ≤ report_ix
    · rw [if_pos hi]
      by_cases hk : keymap.getD i 0 ≠ kb_code
      · rw [if_pos hk, ih (i + 1) (by omega) (by omega)]
        constructor
        · intro h j hj1 hj2
          by_cases hji : j = i
          · rw [hji]; exact hk
          · exact h j (by omega) hj2
        · intro h j hj1 hj2
          exact h j (by omega) hj2
      · rw [if_neg hk]
        constructor
        · intro h j hj1 hj2
          omega
        · intro h
          by_contra hlt
          have hlt' : i < report_ix := by omega
          exact hk (h i (le_refl _) hlt')
    · rw [if_neg hi]
      constructor
      · intro _ j hj1 hj2
        omega
      · intro _
        omega

/-- The relation between the locals of `app_send_kb_report` and the list
`acc` of keycodes collected so far: the first `report_ix` slots hold `acc`,
the other slots are 0. -/
theorem kb_def_step_keys (P : Platform) (st : kb_build) (acc : List Nat) (d : hid_id)
    (hk : st.report.keymap = zero_padded P.USB_KB_REPORT_KEYMAP_SIZE acc)
    (hix : st.report_ix = acc.length)
    (hle : acc.length ≤ P.USB_KB_REPORT_KEYMAP_SIZE) :
    (kb_def_step P st d).report.keymap
        = zero_padded P.USB_KB_REPORT_KEYMAP_SIZE (key_step P acc d) ∧
    (kb_def_step P st d).report_ix = (key_step P acc d).length ∧
    (key_step P acc d).length ≤ P.USB_KB_REPORT_KEYMAP_SIZE := by
  unfold kb_def_step
  by_cases hfull : st.report_ix ≥ P.USB_KB_REPORT_KEYMAP_SIZE
  · rw [if_pos hfull]
    have hnot : ¬ acc.length < P.USB_KB_REPORT_KEYMAP_SIZE := by omega
    have hks : key_step P acc d = acc := by
      cases d <;> simp [key_step, hnot]
    rw [hks]
    exact ⟨hk, hix, hle⟩
  · rw [if_neg hfull]
    have hlt : acc.length < P.USB_KB_REPORT_KEYMAP_SIZE := by omega
    cases d with
    | none => exact ⟨hk, hix, hle⟩
    | mouse c sg dt ac => exact ⟨hk, hix, hle⟩
    | kb code =>
      simp only []
      by_cases hmod : code ≥ P.MOD_LCTRL
      · rw [if_pos hmod]
        have hks : key_step P acc (hid_id.kb code) = acc := by
          have : ¬ code < P.MOD_LCTRL := by omega
          simp [key_step, this]
        rw [hks]
        exact ⟨hk, hix, hle⟩
      · rw [if_neg hmod]
        have hscan := kb_dedup_scan_spec st.report.keymap st.report_ix code
          (st.report_ix + 2) 0 (by omega) (by omega)
        have hmem : (∀ j, 0 ≤ j → j < st.report_ix → st.report.keymap.getD j 0 ≠ code)
            ↔ code ∉ acc := by
          rw [hk, hix]
          constructor
          · intro h hin
            obtain ⟨j, hj, hje⟩ := List.getElem_of_mem hin
            have := h j (Nat.zero_le _) hj
            apply this
            rw [zero_padded, List.getD_append _ _ _ _ hj, List.getD_eq_getElem _ _ hj, hje]
          · intro h j _ hj hje
            apply h
            rw [zero_padded, List.getD_append _ _ _ _ hj, List.getD_eq_getElem _ _ hj] at hje
            rw [← hje]
            exact List.getElem_mem _
        by_cases hin : code ∈ acc
        · have hno : ¬ st.report_ix
              < kb_dedup_scan (st.report_ix + 2) st.report.keymap st.report_ix code 0 := by
            rw [hscan, hmem]; exact fun h => h hin
          have hks : key_step P acc (hid_id.kb code) = acc := by
            simp [key_step, hin]
          simp only [gt_iff_lt, if_neg hno, hks]
          exact ⟨hk, hix, hle⟩
        · have hyes : st.report_ix
              < kb_dedup_scan (st.report_ix + 2) st.report.keymap st.report_ix code 0 := by
            rw [hscan, hmem]; exact hin
          have hks : key_step P acc (hid_id.kb code) = acc ++ [code] := by
            have : code < P.MOD_LCTRL := by omega
            simp [key_step, hin, hlt, this]
          simp only [gt_iff_lt, if_pos hyes, hks]
          refine ⟨?_, ?_, ?_⟩
          · rw [hk, hix, zero_padded, zero_padded, List.set_append_right _ _ (le_refl _),
              Nat.sub_self, List.length_append, List.length_singleton]
            obtain ⟨m, hm⟩ : ∃ m, P.USB_KB_REPORT_KEYMAP_SIZE - acc.length = m + 1 :=
              ⟨P.USB_KB_REPORT_KEYMAP_SIZE - acc.length - 1, by omega⟩
            have hm' : P.USB_KB_REPORT_KEYMAP_SIZE - (acc.length + 1) = m := by omega
            rw [hm, hm', List.replicate_succ, List.set_cons_zero, List.append_assoc,
              List.singleton_append]
          · rw [hix, List.length_append, List.length_singleton]
          · rw [List.length_append, List.length_singleton]
            omega

theorem kb_defs_fold_keys (P : Platform) (l : List hid_id) (st : kb_build) (acc : List Nat)
    (hk : st.report.keymap = zero_padded P.USB_KB_REPORT_KEYMAP_SIZE acc)
    (hix : st.report_ix = acc.length)
    (hle : acc.length ≤ P.USB_KB_REPORT_KEYMAP_SIZE) :
    (l.foldl (kb_def_step P) st).report.keymap
        = zero_padded P.USB_KB_REPORT_KEYMAP_SIZE (l.foldl (key_step P) acc) ∧
    (l.foldl (kb_def_step P) st).report_ix = (l.foldl (key_step P) acc).length := by
  induction l generalizing st acc with
  | nil => exact ⟨hk, hix⟩
  | cons x xs ih =>
    obtain ⟨h1, h2, h3⟩ := kb_def_step_keys P st acc x hk hix hle
    rw [List.foldl_cons, List.foldl_cons]
    exact ih _ _ h1 h2 h3

theorem key_step_take (P : Platform) (a : List Nat) (c : Nat) (hc : c < P.MOD_LCTRL) :
    key_step P (a.take P.USB_KB_REPORT_KEYMAP_SIZE) (hid_id.kb c)
      = (if c ∈ a then a else a ++ [c]).take P.USB_KB_REPORT_KEYMAP_SIZE := by
  simp only [key_step, hc, true_and]
  by_cases hin : c ∈ a
  · rw [if_pos hin]
    by_cases hlen : a.length < P.USB_KB_REPORT_KEYMAP_SIZE
    · have ht : a.take P.USB_KB_REPORT_KEYMAP_SIZE = a := List.take_of_length_le (by omega)
      rw [ht]
      simp [hin]
    · have : ¬ (a.take P.USB_KB_REPORT_KEYMAP_SIZE).length < P.USB_KB_REPORT_KEYMAP_SIZE := by
        rw [List.length_take]; omega
      simp only [this, false_and, if_false]
  · rw [if_neg hin]
    have hnt : c ∉ a.take P.USB_KB_REPORT_KEYMAP_SIZE := fun h => hin (List.mem_of_mem_take h)
    by_cases hlen : a.length < P.USB_KB_REPORT_KEYMAP_SIZE
    · have ht : a.take P.USB_KB_REPORT_KEYMAP_SIZE = a := List.take_of_length_le (by omega)
      have ht2 : (a ++ [c]).take P.USB_KB_REPORT_KEYMAP_SIZE = a ++ [c] :=
        List.take_of_length_le (by simp; omega)
      rw [ht2, ht]
      simp [hin, hlen]
    · have h1 : ¬ (a.take P.USB_KB_REPORT_KEYMAP_SIZE).length < P.USB_KB_REPORT_KEYMAP_SIZE := by
        rw [List.length_take]; omega
      rw [List.take_append_of_le_length (by omega)]
      simp only [h1, false_and, if_false]

theorem key_step_fold_take (P : Platform) (l : List hid_id) (a : List Nat) :
    l.foldl (key_step P) (a.take P.USB_KB_REPORT_KEYMAP_SIZE)
      = ((nonmod_keycodes P l).foldl (fun acc c => if c ∈ acc then acc else acc ++ [c]) a).take
          P.USB_KB_REPORT_KEYMAP_SIZE := by
  induction l generalizing a with
  | nil => rfl
  | cons d ds ih =>
    rw [List.foldl_cons]
    cases d with
    | none => simpa [key_step, nonmod_keycodes] using ih a
    | mouse c sg dt ac => simpa [key_step, nonmod_keycodes] using ih a
    | kb c =>
      by_cases hc : c < P.MOD_LCTRL
      · rw [key_step_take P a c hc, ih]
        simp [nonmod_keycodes, hc]
      · have h1 : key_step P (a.take P.USB_KB_REPORT_KEYMAP_SIZE) (hid_id.kb c)
            = a.take P.USB_KB_REPORT_KEYMAP_SIZE := by
          simp [key_step, hc]
        rw [h1, ih]
        simp [nonmod_keycodes, hc]

theorem first_distinct_fold_nodup (l : List Nat) (a : List Nat) (ha : a.Nodup) :
    (l.foldl (fun acc c => if c ∈ acc then acc else acc ++ [c]) a).Nodup := by
  induction l generalizing a with
  | nil => exact ha
  | cons c cs ih =>
    rw [List.foldl_cons]
    apply ih
    split_ifs with h
    · exact ha
    · rw [List.nodup_append]
      refine ⟨ha, List.nodup_singleton c, ?_⟩
      intro x hx hx'
      rw [List.mem_singleton] at hx'
      exact h (hx' ▸ hx)

/-- The keymap and `report_ix` at the end of the scan. -/
theorem kb_build_report_keys (P : Platform) (app : App) :
    (kb_build_report P app).report.keymap
        = zero_padded P.USB_KB_REPORT_KEYMAP_SIZE (kb_expected_keys P app) ∧
    (kb_build_report P app).report_ix = (kb_expected_keys P app).length := by
  have h := kb_defs_fold_keys P (kb_scanned P app)
    { report := kb_report_zero P, report_ix := 0 } []
    (by simp [zero_padded, kb_report_zero]) rfl (Nat.zero_le _)
  have h2 := key_step_fold_take P (kb_scanned P app) []
  rw [List.take_nil] at h2
  rw [kb_build_report_eq, kb_expected_keys, first_distinct, ← h2]
  exact h

/-- C6 (keyboard keymap contents). For every record, the keymap of the report
that `app_send_kb_report` builds (and keeps in `kb_report_prev`) consists of
the first `USB_KB_REPORT_KEYMAP_SIZE` distinct non-modifier keycodes of the
scanned keyboard definitions, in scan order, padded with zeros; `report_ix`
counts them, they are pairwise distinct, and a keyboard definition met when
all slots are filled leaves the report under construction as it is. -/
theorem kb_keymap_contents (P : Platform) (app : App) :
    (app_send_kb_report P app).kb_report_prev.keymap
        = zero_padded P.USB_KB_REPORT_KEYMAP_SIZE (kb_expected_keys P app) ∧
    (kb_build_report P app).report_ix = (kb_expected_keys P app).length ∧
    (kb_expected_keys P app).Nodup ∧
    (kb_expected_keys P app).length ≤ P.USB_KB_REPORT_KEYMAP_SIZE ∧
    (∀ (st : kb_build) (c : Nat), P.USB_KB_REPORT_KEYMAP_SIZE ≤ st.report_ix →
      kb_def_step P st (hid_id.kb c) = st) := by
  obtain ⟨h1, h2⟩ := kb_build_report_keys P app
  obtain ⟨-, -, f3, -, -⟩ := send_kb_report_fields P app
  refine ⟨by rw [f3, h1], h2, ?_, ?_, fun st c h => kb_def_step_full P st _ h⟩
  · exact (first_distinct_fold_nodup _ [] List.nodup_nil).sublist (List.take_sublist _ _)
  · rw [kb_expected_keys, List.length_take]
    exact Nat.min_le_left _ _

/-! ## C7: the modifier mask -/

theorem key_step_length_le (P : Platform) (acc : List Nat) (d : hid_id) :
    acc.length ≤ (key_step P acc d).length := by
  cases d with
  | none => exact le_refl _
  | mouse c sg dt ac => exact le_refl _
  | kb c =>
    simp only [key_step]
    split_ifs
    · simp
    · exact le_refl _

theorem key_step_fold_length_le (P : Platform) (l : List hid_id) (acc : List Nat) :
    acc.length ≤ (l.foldl (key_step P) acc).length := by
  induction l generalizing acc with
  | nil => exact le_refl _
  | cons x xs ih =>
    rw [List.foldl_cons]
    exact le_trans (key_step_length_le P acc x) (ih _)

/-- As long as the keymap does not fill up, the scan ORs the bit of every
modifier definition into the modifier byte. -/
theorem kb_defs_fold_modifiers (P : Platform) (l : List hid_id) (st : kb_build)
    (acc : List Nat)
    (hk : st.report.keymap = zero_padded P.USB_KB_REPORT_KEYMAP_SIZE acc)
    (hix : st.report_ix = acc.length)
    (hle : acc.length ≤ P.USB_KB_REPORT_KEYMAP_SIZE)
    (hroom : (l.foldl (key_step P) acc).length < P.USB_KB_REPORT_KEYMAP_SIZE) :
    (l.foldl (kb_def_step P) st).report.modifiers
      = (mod_keycodes P l).foldl (fun m c => (m ||| P.MOD_BIT c) % 256) st.report.modifiers := by
  induction l generalizing st acc with
  | nil => rfl
  | cons d ds ih =>
    rw [List.foldl_cons] at hroom ⊢
    obtain ⟨h1, h2, h3⟩ := kb_def_step_keys P st acc d hk hix hle
    rw [ih _ _ h1 h2 h3 hroom]
    have hlt : acc.length < P.USB_KB_REPORT_KEYMAP_SIZE :=
      lt_of_le_of_lt (le_trans (key_step_length_le P acc d) (key_step_fold_length_le P ds _))
        hroom
    have hnf : ¬ st.report_ix ≥ P.USB_KB_REPORT_KEYMAP_SIZE := by omega
    cases d with
    | none => simp [kb_def_step, mod_keycodes]
    | mouse c sg dt ac => simp [kb_def_step, mod_keycodes]
    | kb c =>
      by_cases hc : c ≥ P.MOD_LCTRL
      · simp [kb_def_step, mod_keycodes, hnf, hc]
      · have hmods : (kb_def_step P st (hid_id.kb c)).report.modifiers = st.report.modifiers := by
          simp only [kb_def_step, if_neg hnf, if_neg hc]
          split_ifs <;> rfl
        rw [hmods]
        simp [mod_keycodes, hc]

theorem key_fold_length (P : Platform) (l : List hid_id) :
    (l.foldl (key_step P) []).length
      = min P.USB_KB_REPORT_KEYMAP_SIZE (first_distinct (nonmod_keycodes P l)).length := by
  have h := key_step_fold_take P l []
  rw [List.take_nil] at h
  rw [h, List.length_take, first_distinct]

/-- C7 as stated fails: in `six_keys_shift_example` pin 1 is active and its
range holds six keys and then the modifier `0xE1`; the report that has been
transmitted has modifier byte 0, while the OR of `MOD_BIT` over the modifier
definitions in the range is 2. -/
theorem kb_modifier_after_full_keymap_counterexample :
    six_keys_shift_example.kb_sent
      = [{ modifiers := 0, reserved := 0, keymap := [4, 5, 6, 7, 8, 9] }] ∧
    (kb_build_report board six_keys_shift_example).report.modifiers = 0 ∧
    mod_mask board (mod_keycodes board (kb_scanned board six_keys_shift_example)) = 2 := by
  decide!

/-- C7 amended. The scan of `app_send_kb_report` stops when the keymap is
full. If fewer than `USB_KB_REPORT_KEYMAP_SIZE` distinct non-modifier
keycodes are scanned, the modifier byte of the built report is the OR (as a
byte) of `MOD_BIT(code)` over every scanned keyboard definition with a
modifier code; if the definition `d` fills the last keymap slot, it is that OR
over the modifier definitions scanned before `d`. -/
theorem kb_modifier_mask (P : Platform) (app : App) :
    ((first_distinct (nonmod_keycodes P (kb_scanned P app))).length
        < P.USB_KB_REPORT_KEYMAP_SIZE →
      (app_send_kb_report P app).kb_report_prev.modifiers
        = mod_mask P (mod_keycodes P (kb_scanned P app))) ∧
    (∀ (pre post : List hid_id) (d : hid_id), kb_scanned P app = pre ++ d :: post →
      (first_distinct (nonmod_keycodes P pre)).length < P.USB_KB_REPORT_KEYMAP_SIZE →
      P.USB_KB_REPORT_KEYMAP_SIZE ≤ (first_distinct (nonmod_keycodes P (pre ++ [d]))).length →
      (app_send_kb_report P app).kb_report_prev.modifiers
        = mod_mask P (mod_keycodes P pre)) := by
  obtain ⟨-, -, f3, -, -⟩ := send_kb_report_fields P app
  rw [f3, kb_build_report_eq]
  have hz : ({ report := kb_report_zero P, report_ix := 0 } : kb_build).report.keymap
      = zero_padded P.USB_KB_REPORT_KEYMAP_SIZE [] := by
    simp [zero_padded, kb_report_zero]
  constructor
  · intro hroom
    have hroom' : ((kb_scanned P app).foldl (key_step P) []).length
        < P.USB_KB_REPORT_KEYMAP_SIZE := by
      rw [key_fold_length]; omega
    rw [kb_defs_fold_modifiers P _ _ [] hz rfl (Nat.zero_le _) hroom']
    rfl
  · intro pre post d hsplit hpre hfull
    have hpre' : (pre.foldl (key_step P) []).length < P.USB_KB_REPORT_KEYMAP_SIZE := by
      rw [key_fold_length]; omega
    have hfull' : ((pre ++ [d]).foldl (key_step P) []).length = P.USB_KB_REPORT_KEYMAP_SIZE := by
      rw [key_fold_length]; omega
    obtain ⟨k1, k2⟩ := kb_defs_fold_keys P pre _ [] hz rfl (Nat.zero_le _)
    have hm := kb_defs_fold_modifiers P pre _ [] hz rfl (Nat.zero_le _) hpre'
    obtain ⟨s1, s2, -⟩ := kb_def_step_keys P _ _ d k1 k2 (Nat.le_of_lt hpre')
    rw [List.foldl_append, List.foldl_cons, List.foldl_nil] at hfull'
    rw [hsplit, List.foldl_append, List.foldl_cons,
      kb_defs_fold_full P post _ (by rw [s2, hfull'])]
    have hd : (kb_def_step P (pre.foldl (kb_def_step P)
        { report := kb_report_zero P, report_ix := 0 }) d).report.modifiers
        = (pre.foldl (kb_def_step P)
            { report := kb_report_zero P, report_ix := 0 }).report.modifiers := by
      have hgrow : (key_step P (pre.foldl (key_step P) []) d).length
          ≠ (pre.foldl (key_step P) []).length := by omega
      cases d with
      | none => unfold kb_def_step; split_ifs <;> rfl
      | mouse c sg dt ac => unfold kb_def_step; split_ifs <;> rfl
      | kb c =>
        by_cases hc : c ≥ P.MOD_LCTRL
        · exfalso
          apply hgrow
          have : ¬ c < P.MOD_LCTRL := by omega
          simp [key_step, this]
        · simp only [kb_def_step, if_neg hc]
          split_ifs <;> rfl
    rw [hd, hm]
    rfl

/-- Witness for C7 amended on the board build: in `shift_key_example` one key
and the shift modifier are scanned, the modifier byte is 2; in
`six_keys_shift_example` the key `9` fills the last slot and the modifier
byte is the OR over the (modifier-free) definitions before it. -/
theorem kb_modifier_mask_witness :
    (app_send_kb_report board shift_key_example).kb_report_prev.modifiers = 2 ∧
    (app_send_kb_report board six_keys_shift_example).kb_report_prev.modifiers
      = mod_mask board (mod_keycodes board
          [hid_id.kb 4, hid_id.kb 5, hid_id.kb 6, hid_id.kb 7, hid_id.kb 8]) :=
  ⟨((kb_modifier_mask board shift_key_example).1 (by decide!)).trans (by decide!),
   (kb_modifier_mask board six_keys_shift_example).2
      [hid_id.kb 4, hid_id.kb 5, hid_id.kb 6, hid_id.kb 7, hid_id.kb 8]
      [hid_id.kb 0xe1, hid_id.none] (hid_id.kb 9) (by decide!) (by decide!) (by decide!)⟩

/-! ## C9: first-wins aggregation of the mouse axes -/

theorem mouse_pins_fold_eq (P : Platform) (app : App) (l : List Nat) (st : mouse_scan) :
    l.foldl (mouse_pin_step P app) st
      = (l.flatMap (fun pin =>
          if !app.pin_has_mouse pin || decide (app.pin_state pin = app_pin_state.PIN_INACTIVE)
          then []
          else (def_range (app_get_def_boundary P app pin)).map (app.pin_config pin).id)).foldl
        (mouse_def_step app) st := by
  induction l generalizing st with
  | nil => rfl
  | cons x xs ih =>
    rw [List.foldl_cons, ih, List.flatMap_cons, List.foldl_append]
    congr 1
    unfold mouse_pin_step
    split_ifs
    · rfl
    · rw [List.foldl_map]

/-- The two nested loops of `app_check_mouse_levels` are one pass of the loop
body over the scanned definitions. -/
theorem mouse_scan_all_eq (P : Platform) (app : App) :
    mouse_scan_all P app
      = (mouse_scanned P app).foldl (mouse_def_step app)
          { mdx := 0, mdy := 0, mdw := 0, butt_mask := 0, pos_change := false,
            wheel_change := false } :=
  mouse_pins_fold_eq P app _ _

theorem ite_zero_self (v : Int) : v = if v = 0 then 0 else v := by
  split_ifs with h
  · exact h
  · rfl

/-- One definition changes the local of an axis only while it is 0, and then
by the signed displacement of a definition on that axis. -/
theorem mouse_def_step_axis (app : App) (axis : mouse_code) (st : mouse_scan) (d : hid_id)
    (haxis : axis = mouse_code.MOUSE_X ∨ axis = mouse_code.MOUSE_Y ∨
      axis = mouse_code.MOUSE_WHEEL) :
    mouse_scan_axis axis (mouse_def_step app st d)
      = if mouse_scan_axis axis st = 0 then mouse_axis_delta app axis d
        else mouse_scan_axis axis st := by
  rcases haxis with h | h | h <;> subst h
  all_goals
    cases d with
    | none => exact ite_zero_self _
    | kb c => exact ite_zero_self _
    | mouse code sign dt ac =>
      cases code <;> simp only [mouse_def_step, mouse_scan_axis, mouse_axis_delta] <;>
        split_ifs <;> simp_all

theorem mouse_def_step_flag (app : App) (axis : mouse_code) (st : mouse_scan) (d : hid_id)
    (haxis : axis = mouse_code.MOUSE_X ∨ axis = mouse_code.MOUSE_Y ∨
      axis = mouse_code.MOUSE_WHEEL)
    (h : mouse_scan_flag axis st = true ∨ mouse_axis_delta app axis d ≠ 0) :
    mouse_scan_flag axis (mouse_def_step app st d) = true := by
  rcases haxis with ha | ha | ha <;> subst ha
  all_goals
    cases d with
    | none => simpa [mouse_def_step, mouse_axis_delta] using h
    | kb c => simpa [mouse_def_step, mouse_axis_delta] using h
    | mouse code sign dt ac =>
      cases code <;> simp_all [mouse_def_step, mouse_scan_flag, mouse_axis_delta]

theorem mouse_fold_flag (app : App) (axis : mouse_code) (l : List hid_id) (st : mouse_scan)
    (haxis : axis = mouse_code.MOUSE_X ∨ axis = mouse_code.MOUSE_Y ∨
      axis = mouse_code.MOUSE_WHEEL)
    (h : mouse_scan_flag axis st = true) :
    mouse_scan_flag axis (l.foldl (mouse_def_step app) st) = true := by
  induction l generalizing st with
  | nil => exact h
  | cons x xs ih =>
    rw [List.foldl_cons]
    exact ih _ (mouse_def_step_flag app axis st x haxis (Or.inl h))

theorem mouse_fold_axis_zero (app : App) (axis : mouse_code) (l : List hid_id)
    (st : mouse_scan)
    (haxis : axis = mouse_code.MOUSE_X ∨ axis = mouse_code.MOUSE_Y ∨
      axis = mouse_code.MOUSE_WHEEL)
    (h : ∀ e ∈ l, mouse_axis_delta app axis e = 0) :
    mouse_scan_axis axis (l.foldl (mouse_def_step app) st) = mouse_scan_axis axis st := by
  induction l generalizing st with
  | nil => rfl
  | cons x xs ih =>
    rw [List.foldl_cons, ih _ (fun e he => h e (List.mem_cons_of_mem _ he)),
      mouse_def_step_axis _ _ _ _ haxis, h x (List.mem_cons_self _ _)]
    split_ifs with h0
    · exact h0.symm
    · rfl

theorem mouse_fold_axis_set (app : App) (axis : mouse_code) (l : List hid_id)
    (st : mouse_scan)
    (haxis : axis = mouse_code.MOUSE_X ∨ axis = mouse_code.MOUSE_Y ∨
      axis = mouse_code.MOUSE_WHEEL)
    (h : mouse_scan_axis axis st ≠ 0) :
    mouse_scan_axis axis (l.foldl (mouse_def_step app) st) = mouse_scan_axis axis st := by
  induction l generalizing st with
  | nil => rfl
  | cons x xs ih =>
    have hx : mouse_scan_axis axis (mouse_def_step app st x) = mouse_scan_axis axis st := by
      rw [mouse_def_step_axis _ _ _ _ haxis, if_neg h]
    rw [List.foldl_cons, ih _ (by rw [hx]; exact h), hx]

/-- The delta of an axis that `app_check_mouse_levels` writes is the local of
the scan when the change flag of the axis is set. -/
theorem check_mouse_axis (P : Platform) (app : App) (axis : mouse_code)
    (hflag : mouse_scan_flag axis (mouse_scan_all P app) = true) :
    mouse_state_axis axis (app_check_mouse_levels P app).2.1
      = mouse_scan_axis axis (mouse_scan_all P app) := by
  cases axis <;>
    simp_all [app_check_mouse_levels, mouse_state_axis, mouse_scan_axis, mouse_scan_flag]

/-- The first scanned definition with a non-zero contribution to an axis
decides the delta of that axis. -/
theorem mouse_first_wins (P : Platform) (app : App) (axis : mouse_code)
    (pre post : List hid_id) (d : hid_id)
    (haxis : axis = mouse_code.MOUSE_X ∨ axis = mouse_code.MOUSE_Y ∨
      axis = mouse_code.MOUSE_WHEEL)
    (hsplit : mouse_scanned P app = pre ++ d :: post)
    (hpre : ∀ e ∈ pre, mouse_axis_delta app axis e = 0)
    (hd : mouse_axis_delta app axis d ≠ 0) :
    mouse_state_axis axis (app_check_mouse_levels P app).2.1 = mouse_axis_delta app axis d := by
  have hscan := mouse_scan_all_eq P app
  rw [hsplit, List.foldl_append, List.foldl_cons] at hscan
  have h0 : mouse_scan_axis axis (pre.foldl (mouse_def_step app)
      { mdx := 0, mdy := 0, mdw := 0, butt_mask := 0, pos_change := false,
        wheel_change := false }) = 0 := by
    rw [mouse_fold_axis_zero app axis pre _ haxis hpre]
    cases axis <;> rfl
  have h1 := mouse_def_step_axis app axis (pre.foldl (mouse_def_step app)
      { mdx := 0, mdy := 0, mdw := 0, butt_mask := 0, pos_change := false,
        wheel_change := false }) d haxis
  rw [if_pos h0] at h1
  have hflag : mouse_scan_flag axis (mouse_scan_all P app) = true := by
    rw [hscan]
    exact mouse_fold_flag app axis post _ haxis
      (mouse_def_step_flag app axis _ d haxis (Or.inr hd))
  rw [check_mouse_axis P app axis hflag, hscan,
    mouse_fold_axis_set app axis post _ haxis (by rw [h1]; exact hd), h1]

theorem mouse_axis_delta_congr (app app' : App) (axis : mouse_code) (d : hid_id)
    (hpos : app'.acc_pos = app.acc_pos) (hwhe : app'.acc_whe = app.acc_whe) :
    mouse_axis_delta app' axis d = mouse_axis_delta app axis d := by
  cases d with
  | none => rfl
  | kb c => rfl
  | mouse code sign dt ac => simp only [mouse_axis_delta, mouse_displacement, hpos, hwhe]

/-- C9 as stated fails: pins 1 and 2 are active and carry one `MOUSE_X`
definition each. With magnitude 0 on pin 1 the returned `dx` is the
displacement of pin 2: changing the magnitude of pin 2 from 10 to 20 changes
`dx` from 10 to 20, and changing its sign gives -10. -/
theorem mouse_first_wins_zero_counterexample :
    (app_check_mouse_levels board
      (two_axis_pins_example mouse_code.MOUSE_X false 0 false 10)).2.1.dx = 10 ∧
    (app_check_mouse_levels board
      (two_axis_pins_example mouse_code.MOUSE_X false 0 false 20)).2.1.dx = 20 ∧
    (app_check_mouse_levels board
      (two_axis_pins_example mouse_code.MOUSE_X false 0 true 10)).2.1.dx = -10 := by
  decide!

/-- C9 amended. Let `d` be the first scanned definition whose contribution to
`MOUSE_X` is not 0 (a `MOUSE_X` definition with non-zero displacement, all
`MOUSE_X` definitions scanned before it having displacement 0). Then the `dx`
returned by `app_check_mouse_levels` is the signed displacement of `d`, and
it is the same in every record `app'` with the same accumulators whose scan
agrees up to `d`, whatever is scanned after `d`. The same holds for
`MOUSE_Y` and `dy` and for `MOUSE_WHEEL` and `dw`. -/
theorem mouse_axis_first_wins (P : Platform) (app app' : App)
    (pre post post' : List hid_id) (d : hid_id)
    (hpos : app'.acc_pos = app.acc_pos) (hwhe : app'.acc_whe = app.acc_whe)
    (h1 : mouse_scanned P app = pre ++ d :: post)
    (h2 : mouse_scanned P app' = pre ++ d :: post') :
    ((∀ e ∈ pre, mouse_axis_delta app mouse_code.MOUSE_X e = 0) →
      mouse_axis_delta app mouse_code.MOUSE_X d ≠ 0 →
      (app_check_mouse_levels P app).2.1.dx = mouse_axis_delta app mouse_code.MOUSE_X d ∧
      (app_check_mouse_levels P app').2.1.dx = (app_check_mouse_levels P app).2.1.dx) ∧
    ((∀ e ∈ pre, mouse_axis_delta app mouse_code.MOUSE_Y e = 0) →
      mouse_axis_delta app mouse_code.MOUSE_Y d ≠ 0 →
      (app_check_mouse_levels P app).2.1.dy = mouse_axis_delta app mouse_code.MOUSE_Y d ∧
      (app_check_mouse_levels P app').2.1.dy = (app_check_mouse_levels P app).2.1.dy) ∧
    ((∀ e ∈ pre, mouse_axis_delta app mouse_code.MOUSE_WHEEL e = 0) →
      mouse_axis_delta app mouse_code.MOUSE_WHEEL d ≠ 0 →
      (app_check_mouse_levels P app).2.1.dw = mouse_axis_delta app mouse_code.MOUSE_WHEEL d ∧
      (app_check_mouse_levels P app').2.1.dw = (app_check_mouse_levels P app).2.1.dw) := by
  have key : ∀ axis, (axis = mouse_code.MOUSE_X ∨ axis = mouse_code.MOUSE_Y ∨
      axis = mouse_code.MOUSE_WHEEL) →
      (∀ e ∈ pre, mouse_axis_delta app axis e = 0) → mouse_axis_delta app axis d ≠ 0 →
      mouse_state_axis axis (app_check_mouse_levels P app).2.1 = mouse_axis_delta app axis d ∧
      mouse_state_axis axis (app_check_mouse_levels P app').2.1
        = mouse_state_axis axis (app_check_mouse_levels P app).2.1 := by
    intro axis haxis hpre hd
    have e1 := mouse_first_wins P app axis pre post d haxis h1 hpre hd
    have e2 := mouse_first_wins P app' axis pre post' d haxis h2
      (fun e he => by rw [mouse_axis_delta_congr app app' axis e hpos hwhe]; exact hpre e he)
      (by rw [mouse_axis_delta_congr app app' axis d hpos hwhe]; exact hd)
    rw [mouse_axis_delta_congr app app' axis d hpos hwhe] at e2
    exact ⟨e1, by rw [e1, e2]⟩
  exact ⟨key _ (Or.inl rfl), key _ (Or.inr (Or.inl rfl)), key _ (Or.inr (Or.inr rfl))⟩

/-- Witness for C9 amended on the board build: pin 1 carries `MOUSE_X` with
magnitude 5; `dx` is 5 both when pin 2 carries magnitude 10 and when it
carries magnitude 20 with the opposite sign. -/
theorem mouse_axis_first_wins_witness :
    (app_check_mouse_levels board
      (two_axis_pins_example mouse_code.MOUSE_X false 5 false 10)).2.1.dx = 5 ∧
    (app_check_mouse_levels board
      (two_axis_pins_example mouse_code.MOUSE_X false 5 true 20)).2.1.dx
      = (app_check_mouse_levels board
          (two_axis_pins_example mouse_code.MOUSE_X false 5 false 10)).2.1.dx :=
  have h := (mouse_axis_first_wins board
    (two_axis_pins_example mouse_code.MOUSE_X false 5 false 10)
    (two_axis_pins_example mouse_code.MOUSE_X false 5 true 20)
    []
    (List.replicate 7 hid_id.none ++
      hid_id.mouse mouse_code.MOUSE_X false 10 false :: List.replicate 7 hid_id.none)
    (List.replicate 7 hid_id.none ++
      hid_id.mouse mouse_code.MOUSE_X true 20 false :: List.replicate 7 hid_id.none)
    (hid_id.mouse mouse_code.MOUSE_X false 5 false)
    (by decide!) (by decide!) (by decide!) (by decide!)).1
    (fun _ he => absurd he (List.not_mem_nil _)) (by decide!)
  ⟨h.1.trans (by decide!), h.2⟩

/-! ## Ticks with and without a change -/

theorem APP_timer_loop_changes (raw : Nat → Bool) (app : App) (b : Bool) (n : Nat) :
    ((List.range n).foldl (APP_timer_pin raw) (app, b)).2
      = (b || (List.range n).any (pin_changed raw app)) := by
  induction n with
  | zero => simp
  | succ n ih =>
    rw [List.range_succ, List.foldl_append, List.foldl_cons, List.foldl_nil, List.any_append]
    have hstep : ∀ st : App × Bool, (APP_timer_pin raw st n).2
        = if (APP_timer_pin raw st n).1.irq_cur_pin_active n
            ≠ decide ((APP_timer_pin raw st n).1.pin_state n ≠ app_pin_state.PIN_INACTIVE)
          then true else st.2 := fun _ => rfl
    rw [hstep]
    have h1 := APP_timer_pin_spec raw ((List.range n).foldl (APP_timer_pin raw) (app, b)) n
    simp only [] at h1
    rw [h1, ih, APP_timer_loop_spec]
    simp only [debounce_all, lt_self_iff_false, if_false, tset_same, List.any_cons,
      List.any_nil, Bool.or_false, pin_changed]
    split_ifs with hc
    · rw [decide_eq_true hc, Bool.or_true, Bool.or_true]
    · rw [decide_eq_false hc, Bool.or_false]

/-- A tick in which the sampler sees no change on any pin only updates the
debounce state. -/
theorem tick_quiet (P : Platform) (k m : Bool) (raw : Nat → Bool) (app : App)
    (hinit : app.app_init = true) (hlock : app.lock_gpio_sampling = false)
    (hq : ∀ q, q < P.APP_CONFIG_PINS → pin_changed raw app q = false) :
    tick P k m app raw = debounce_all P.APP_CONFIG_PINS raw app := by
  have hany : (List.range P.APP_CONFIG_PINS).any (pin_changed raw app) = false := by
    rw [List.any_eq_false]
    intro x hx
    rw [hq x (List.mem_range.mp hx)]
    simp
  simp only [tick, APP_timer, hinit, hlock, if_true, Bool.not_false, APP_timer_loop_changes,
    APP_timer_loop_spec, hany, Bool.or_false, Bool.and_false, Bool.false_eq_true, if_false]

/-- A tick in which the sampler sees a change while `dirty_gpio` is clear
runs `app_pins_update` on the debounced record. -/
theorem tick_dirty (P : Platform) (k m : Bool) (raw : Nat → Bool) (app : App)
    (hinit : app.app_init = true) (hlock : app.lock_gpio_sampling = false)
    (hdg : app.dirty_gpio = false) (q : Nat) (hq : q < P.APP_CONFIG_PINS)
    (hch : pin_changed raw app q = true) :
    tick P k m app raw
      = app_pins_update P k m
          { debounce_all P.APP_CONFIG_PINS raw app with dirty_gpio := true } := by
  have hany : (List.range P.APP_CONFIG_PINS).any (pin_changed raw app) = true := by
    rw [List.any_eq_true]
    exact ⟨q, List.mem_range.mpr hq, hch⟩
  have hd : (debounce_all P.APP_CONFIG_PINS raw app).dirty_gpio = false := hdg
  simp only [tick, APP_timer, hinit, hlock, if_true, Bool.not_false, APP_timer_loop_changes,
    APP_timer_loop_spec, hany, Bool.or_true, hd, Bool.and_true, app_pins_dirty_msg]

/-! ## Scenario 1: one key on pin 1 -/

theorem debounce_next_idle (c : Nat) (db : pin_debounce) (h : db.pin_active = false) :
    (debounce_next c db false false).1.pin_active = false ∧
    (debounce_next c db false false).2 = false := by
  unfold debounce_next
  split_ifs <;> simp_all

theorem debounce_next_rise (c : Nat) (db : pin_debounce) (h : db.pin_active = false) :
    debounce_next c db false true = ({ pin_active := true, same_state := 0 }, false) := by
  simp [debounce_next, h]

theorem debounce_next_count (c j : Nat) (hj : j < c) (hc : c ≤ 127) :
    debounce_next c { pin_active := true, same_state := j } false true
      = ({ pin_active := true, same_state := j + 1 }, false) := by
  have : (j + 1) % 128 = j + 1 := Nat.mod_eq_of_lt (by omega)
  simp [debounce_next, hj, this]

theorem debounce_next_confirm (c : Nat) :
    debounce_next c { pin_active := true, same_state := c } false true
      = ({ pin_active := true, same_state := c }, true) := by
  simp [debounce_next]

/-- A tick that leaves every confirmed level inactive keeps an idle record
idle and only updates the debounce state. -/
theorem key_idle_tick (P : Platform) (c A : Nat) (k m : Bool) (raw : Nat → Bool) (app : App)
    (hidle : key_idle P c A app)
    (hq : ∀ q, q < P.APP_CONFIG_PINS →
      (debounce_next c (app.irq_debounce_map q) false (raw q)).2 = false) :
    tick P k m app raw = debounce_all P.APP_CONFIG_PINS raw app ∧
    key_idle P c A (tick P k m app raw) := by
  obtain ⟨h1, h2, h3, h4, h5, h6, h7, h8, h9, h10, h11⟩ := hidle
  have ht : tick P k m app raw = debounce_all P.APP_CONFIG_PINS raw app := by
    apply tick_quiet P k m raw app h1 h2
    intro q hlt
    simp [pin_changed, h3, h8 q, h9 q, hq q hlt]
  refine ⟨ht, ?_⟩
  rw [ht]
  refine ⟨h1, h2, h3, h4, h5, h6, h7, ?_, h9, h10, h11⟩
  intro q
  simp only [debounce_all]
  split_ifs with hlt
  · rw [h3, h8 q]; exact hq q hlt
  · exact h8 q

/-- Ticks that sample every pin inactive keep an idle record idle. -/
theorem key_idle_low_ticks (P : Platform) (c A : Nat) (n : Nat) (app : App)
    (hidle : key_idle P c A app) (hpa : ∀ q, (app.irq_debounce_map q).pin_active = false) :
    key_idle P c A (run_ticks P app (List.replicate n (sample []))) ∧
    ∀ q, ((run_ticks P app (List.replicate n (sample []))).irq_debounce_map q).pin_active
      = false := by
  induction n generalizing app with
  | zero => exact ⟨hidle, hpa⟩
  | succ n ih =>
    have hraw : ∀ q, (sample []).raw q = false := fun q => by simp [sample]
    obtain ⟨ht, hi⟩ := key_idle_tick P c A true true (sample []).raw app hidle
      (fun q _ => by rw [hraw q]; exact (debounce_next_idle c _ (hpa q)).2)
    have hrun : run_ticks P app (List.replicate (n + 1) (sample []))
        = run_ticks P (tick P true true app (sample []).raw) (List.replicate n (sample [])) := by
      simp [run_ticks, List.replicate_succ, sample]
    rw [hrun]
    apply ih _ hi
    intro q
    rw [ht]
    simp only [debounce_all]
    split_ifs
    · rw [hraw q, hidle.2.2.1, hidle.2.2.2.2.2.2.2.1 q]
      exact (debounce_next_idle c _ (hpa q)).1
    · exact hpa q

theorem sample_zero_raw (q : Nat) : (sample [0]).raw q = decide (q = 0) := by
  simp [sample]

/-- One tick that samples only pin 1 active and does not confirm it yet. -/
theorem key_idle_high_tick (P : Platform) (c A : Nat) (app : App) (d : pin_debounce)
    (hN1 : 1 ≤ P.APP_CONFIG_PINS)
    (hidle : key_idle P c A app)
    (hpa : ∀ q, q ≠ 0 → (app.irq_debounce_map q).pin_active = false)
    (h0 : debounce_next c (app.irq_debounce_map 0) false true = (d, false)) :
    key_idle P c A (tick P true true app (sample [0]).raw) ∧
    (tick P true true app (sample [0]).raw).irq_debounce_map 0 = d ∧
    ∀ q, q ≠ 0 →
      ((tick P true true app (sample [0]).raw).irq_debounce_map q).pin_active = false := by
  have hcyc := hidle.2.2.1
  have hcur := hidle.2.2.2.2.2.2.2.1
  obtain ⟨ht, hi⟩ := key_idle_tick P c A true true (sample [0]).raw app hidle (by
    intro q _
    rw [sample_zero_raw]
    by_cases hq : q = 0
    · subst hq
      simp only [decide_True, h0]
    · simp only [hq, decide_False]
      exact (debounce_next_idle c _ (hpa q hq)).2)
  refine ⟨hi, ?_, ?_⟩
  · rw [ht]
    have hlt : 0 < P.APP_CONFIG_PINS := hN1
    simp only [debounce_all, hlt, if_true, hcyc, hcur 0, sample_zero_raw, decide_True, h0]
  · intro q hq
    rw [ht]
    simp only [debounce_all, hcyc, hcur q, sample_zero_raw, hq, decide_False]
    split_ifs
    · exact (debounce_next_idle c _ (hpa q hq)).1
    · exact hpa q hq

/-- After `j + 1 ≤ c + 1` ticks that sample only pin 1 active the record is
still idle and the counter of pin 1 stands at `j`. -/
theorem key_idle_high_ticks (P : Platform) (c A : Nat) (app : App)
    (hN1 : 1 ≤ P.APP_CONFIG_PINS) (hc : c ≤ 127)
    (hidle : key_idle P c A app) (hpa : ∀ q, (app.irq_debounce_map q).pin_active = false)
    (j : Nat) (hj : j ≤ c) :
    key_idle P c A (run_ticks P app (List.replicate (j + 1) (sample [0]))) ∧
    (run_ticks P app (List.replicate (j + 1) (sample [0]))).irq_debounce_map 0
      = { pin_active := true, same_state := j } ∧
    ∀ q, q ≠ 0 →
      ((run_ticks P app (List.replicate (j + 1) (sample [0]))).irq_debounce_map q).pin_active
        = false := by
  induction j with
  | zero =>
    have hrun : run_ticks P app (List.replicate (0 + 1) (sample [0]))
        = tick P true true app (sample [0]).raw := by
      simp [run_ticks, sample]
    rw [hrun]
    exact key_idle_high_tick P c A app _ hN1 hidle (fun q _ => hpa q)
      (debounce_next_rise c _ (hpa 0))
  | succ j ih =>
    obtain ⟨i1, i2, i3⟩ := ih (by omega)
    have hrun : run_ticks P app (List.replicate (j + 1 + 1) (sample [0]))
        = tick P true true (run_ticks P app (List.replicate (j + 1) (sample [0])))
            (sample [0]).raw := by
      rw [List.replicate_succ' (j + 1)]
      simp [run_ticks, List.foldl_append, sample]
    rw [hrun]
    exact key_idle_high_tick P c A _ _ hN1 i1 i3
      (by rw [i2]; exact debounce_next_count c j (by omega) hc)

theorem pins_update_trigger_spec (P : Platform) (hN : P.APP_CONFIG_PINS ≤ 256) (app : App) :
    pins_update_trigger P app
      = { app with
          pin_state := fun q =>
            if q < P.APP_CONFIG_PINS then activation_rule app q else app.pin_state q,
          lock_gpio_sampling := false } := by
  simp only [pins_update_trigger, pins_trigger_all_spec P hN]
  rfl

theorem pins_kb_dirty_fold (app : App) (l : List Nat) (b : Bool) :
    l.foldl (fun found pin => if found then true
        else decide (app.pin_state pin ≠ app.pin_state_prev pin)) b
      = (b || l.any (fun pin => decide (app.pin_state pin ≠ app.pin_state_prev pin))) := by
  induction l generalizing b with
  | nil => simp
  | cons x xs ih =>
    rw [List.foldl_cons, ih, List.any_cons]
    cases b <;> simp

/-- The keyboard edge check finds a pin whose state differs from the state
of the previous pass. -/
theorem pins_kb_dirty_of_change (P : Platform) (app : App) (q : Nat)
    (hq : q < P.APP_CONFIG_PINS) (hne : app.pin_state q ≠ app.pin_state_prev q) :
    pins_kb_dirty P app = true := by
  unfold pins_kb_dirty
  split_ifs with h
  · rw [pins_kb_dirty_fold, Bool.false_or, List.any_eq_true]
    exact ⟨q, List.mem_range.mpr hq, decide_eq_true hne⟩
  · simpa using h

theorem kb_sent_check_mouse (P : Platform) (app : App) :
    (app_check_mouse_levels P app).1.kb_sent = app.kb_sent := by
  simp only [app_check_mouse_levels]
  split_ifs <;> rfl

theorem kb_sent_update_mouse (P : Platform) (m : Bool) (app : App) :
    (pins_update_mouse P m app).kb_sent = app.kb_sent := by
  have h := kb_sent_check_mouse P app
  simp only [pins_update_mouse]
  split_ifs
  · exact h
  · exact h
  · exact h

/-- When pin 1 is the only pin that is not inactive, the keyboard scan runs
over the resolved range of pin 1. -/
theorem kb_scanned_single (P : Platform) (app : App) (hN1 : 1 ≤ P.APP_CONFIG_PINS)
    (h0 : app.pin_state 0 ≠ app_pin_state.PIN_INACTIVE)
    (hq : ∀ q, q ≠ 0 → app.pin_state q = app_pin_state.PIN_INACTIVE) :
    kb_scanned P app
      = (def_range (app_get_def_boundary P app 0)).map (app.pin_config 0).id := by
  obtain ⟨n, hn⟩ : ∃ n, P.APP_CONFIG_PINS = n + 1 := ⟨P.APP_CONFIG_PINS - 1, by omega⟩
  unfold kb_scanned
  rw [hn, List.range_succ_eq_map, List.flatMap_cons, if_neg h0]
  have hrest : (List.map Nat.succ (List.range n)).flatMap (fun pin =>
      if app.pin_state pin = app_pin_state.PIN_INACTIVE then []
      else (def_range (app_get_def_boundary P app pin)).map (app.pin_config pin).id) = [] := by
    rw [List.flatMap_eq_nil_iff]
    intro x hx
    obtain ⟨y, -, hy⟩ := List.mem_map.mp hx
    rw [if_pos (hq x (by omega))]
  rw [hrest, List.append_nil]

/-- The scanned definitions of the single-key configuration: the key, then
empty slots. -/
theorem single_key_range (P : Platform) (A : Nat) (hD : 1 ≤ P.APP_CONFIG_DEFS_PER_PIN) :
    (def_range (0, P.APP_CONFIG_DEFS_PER_PIN)).map (single_key_config 1 A).id
      = hid_id.kb A :: List.replicate (P.APP_CONFIG_DEFS_PER_PIN - 1) hid_id.none := by
  obtain ⟨n, hn⟩ : ∃ n, P.APP_CONFIG_DEFS_PER_PIN = n + 1 :=
    ⟨P.APP_CONFIG_DEFS_PER_PIN - 1, by omega⟩
  rw [hn]
  simp only [def_range, Nat.sub_zero, List.range'_succ, List.map_cons, single_key_config,
    if_true, Nat.add_sub_cancel]
  congr 1
  rw [List.eq_replicate_iff]
  refine ⟨by simp, ?_⟩
  intro b hb
  obtain ⟨x, hx, hxb⟩ := List.mem_map.mp hb
  have hx1 : 1 ≤ x := (List.mem_range'.mp hx).elim (fun i hi => by omega)
  have : x ≠ 0 := by omega
  rw [← hxb, if_neg this]

theorem kb_defs_fold_no_modifier (P : Platform) (l : List hid_id) (st : kb_build)
    (h : ∀ c, hid_id.kb c ∈ l → c < P.MOD_LCTRL) :
    (l.foldl (kb_def_step P) st).report.modifiers = st.report.modifiers := by
  induction l generalizing st with
  | nil => rfl
  | cons d ds ih =>
    rw [List.foldl_cons, ih _ (fun c hc => h c (List.mem_cons_of_mem _ hc))]
    unfold kb_def_step
    split_ifs
    · rfl
    · cases d with
      | none => rfl
      | mouse c sg dt ac => rfl
      | kb c =>
        have hc : ¬ c ≥ P.MOD_LCTRL := Nat.not_le.mpr (h c (List.mem_cons_self _ _))
        simp only [if_neg hc]
        split_ifs <;> rfl

/-- The report built when pin 1, carrying the single key `A`, is the only
pin that is not inactive. -/
theorem kb_build_report_single_key (P : Platform) (app : App) (A : Nat)
    (hN1 : 1 ≤ P.APP_CONFIG_PINS) (hD : 1 ≤ P.APP_CONFIG_DEFS_PER_PIN)
    (hK : 1 ≤ P.USB_KB_REPORT_KEYMAP_SIZE) (hA : A < P.MOD_LCTRL)
    (h0 : app.pin_state 0 ≠ app_pin_state.PIN_INACTIVE)
    (hq : ∀ q, q ≠ 0 → app.pin_state q = app_pin_state.PIN_INACTIVE)
    (hcfg : app.pin_config 0 = single_key_config 1 A) :
    (kb_build_report P app).report = single_key_report P A := by
  have hscan : kb_scanned P app
      = hid_id.kb A :: List.replicate (P.APP_CONFIG_DEFS_PER_PIN - 1) hid_id.none := by
    rw [kb_scanned_single P app hN1 h0 hq, hcfg, ← single_key_range P A hD]
    simp [app_get_def_boundary, hcfg, single_key_config]
  have hkeys : kb_expected_keys P app = [A] := by
    have hnm : nonmod_keycodes P (kb_scanned P app) = [A] := by
      rw [hscan]
      simp only [nonmod_keycodes, List.filterMap_cons, hA, if_true]
      congr 1
      rw [List.filterMap_eq_nil_iff]
      intro x hx
      rw [List.eq_of_mem_replicate hx]
    rw [kb_expected_keys, hnm]
    simp only [first_distinct, List.foldl_cons, List.foldl_nil, List.not_mem_nil, if_false,
      List.nil_append]
    exact List.take_of_length_le hK
  have hmod : (kb_build_report P app).report.modifiers = 0 := by
    rw [kb_build_report_eq, kb_defs_fold_no_modifier]
    · rfl
    · intro c hc
      rw [hscan, List.mem_cons] at hc
      rcases hc with hc | hc
      · injection hc with hc
        rw [hc]; exact hA
      · exact absurd (List.eq_of_mem_replicate hc) (by simp)
  have hres := kb_build_report_reserved P app
  obtain ⟨hk, -⟩ := kb_build_report_keys P app
  rw [hkeys] at hk
  cases hrep : (kb_build_report P app).report with
  | mk mo re km =>
    rw [hrep] at hmod hres hk
    simp only at hmod hres hk
    rw [hmod, hres, hk]
    rfl

/-- The pass of `app_pins_update` in which pin 1 has just been confirmed
active transmits the single-key report. -/
theorem key_press_update (P : Platform) (A : Nat) (m : Bool) (app : App)
    (hN1 : 1 ≤ P.APP_CONFIG_PINS) (hN : P.APP_CONFIG_PINS ≤ 256)
    (hD : 1 ≤ P.APP_CONFIG_DEFS_PER_PIN) (hK : 1 ≤ P.USB_KB_REPORT_KEYMAP_SIZE)
    (hA0 : 0 < A) (hA : A < P.MOD_LCTRL)
    (hsent : app.kb_sent = [])
    (hprev : app.kb_report_prev = kb_report_zero P)
    (hcur0 : app.irq_cur_pin_active 0 = true)
    (hcur : ∀ q, q ≠ 0 → app.irq_cur_pin_active q = false)
    (hps : ∀ q, app.pin_state q = app_pin_state.PIN_INACTIVE)
    (hpp : ∀ q, app.pin_state_prev q = app_pin_state.PIN_INACTIVE)
    (hcfg : app.pin_config 0 = single_key_config 1 A) :
    (app_pins_update P true m app).kb_sent = [single_key_report P A] := by
  have hlt : 0 < P.APP_CONFIG_PINS := hN1
  have e1 : (app_pins_update P true m app).kb_sent
      = (pins_update_kb P true (pins_update_trigger P app)).kb_sent := by
    show (pins_update_mouse P m _).kb_sent = _
    rw [kb_sent_update_mouse]
  rw [e1, pins_update_trigger_spec P hN]
  have hs0 : activation_rule app 0 = app_pin_state.PIN_ACTIVE := by
    simp [activation_rule, hps 0, hcur0, hcfg, single_key_config]
  have hsq : ∀ q, q ≠ 0 → activation_rule app q = app_pin_state.PIN_INACTIVE := by
    intro q hq
    simp [activation_rule, hps q, hcur q hq]
  generalize ha1 : ({ app with
      pin_state := fun q =>
        if q < P.APP_CONFIG_PINS then activation_rule app q else app.pin_state q,
      lock_gpio_sampling := false } : App) = a1
  have p0 : a1.pin_state 0 = app_pin_state.PIN_ACTIVE := by
    rw [← ha1]; simp only [hlt, if_true, hs0]
  have pq : ∀ q, q ≠ 0 → a1.pin_state q = app_pin_state.PIN_INACTIVE := by
    intro q hq
    rw [← ha1]
    simp only []
    split_ifs
    · exact hsq q hq
    · exact hps q
  have pprev : a1.pin_state_prev = app.pin_state_prev := by rw [← ha1]
  have pcfg : a1.pin_config 0 = single_key_config 1 A := by rw [← ha1]; exact hcfg
  have psent : a1.kb_sent = [] := by rw [← ha1]; exact hsent
  have pprv : a1.kb_report_prev = kb_report_zero P := by rw [← ha1]; exact hprev
  have hdirty : pins_kb_dirty P a1 = true :=
    pins_kb_dirty_of_change P a1 0 hlt (by rw [p0, pprev, hpp 0]; decide)
  simp only [pins_update_kb, hdirty, Bool.and_self, if_true]
  obtain ⟨-, -, -, -, f5⟩ := send_kb_report_fields P { a1 with dirty_kb := true }
  have hrep := kb_build_report_single_key P { a1 with dirty_kb := true } A hN1 hD hK hA
    (by show a1.pin_state 0 ≠ _; rw [p0]; decide) pq pcfg
  rw [f5, hrep]
  have hne : single_key_report P A ≠ a1.kb_report_prev := by
    rw [pprv, kb_report_zero, single_key_report]
    intro h
    injection h with _ _ hk
    obtain ⟨n, hn⟩ : ∃ n, P.USB_KB_REPORT_KEYMAP_SIZE = n + 1 :=
      ⟨P.USB_KB_REPORT_KEYMAP_SIZE - 1, by omega⟩
    rw [hn, zero_padded, List.replicate_succ] at hk
    simp at hk
    omega
  show (if _ = a1.kb_report_prev then a1.kb_sent else a1.kb_sent ++ [_]) = _
  rw [if_neg hne, psent, List.nil_append]

theorem scenario1_start_idle (P : Platform) (c A : Nat) (hc : c ≤ 127) :
    key_idle P c A (scenario1_start P c A) ∧
    ∀ q, ((scenario1_start P c A).irq_debounce_map q).pin_active = false := by
  have hmod : c % 256 = c := Nat.mod_eq_of_lt (by omega)
  refine ⟨⟨rfl, rfl, hmod, rfl, rfl, rfl, rfl, ?_, ?_, ?_, ?_⟩, fun q => rfl⟩
  · intro q
    simp [scenario1_start, APP_cfg_set_pin, APP_cfg_set_debounce_cycles, APP_init, tset]
  · intro q
    simp [scenario1_start, APP_cfg_set_pin, APP_cfg_set_debounce_cycles, APP_init, tset]
  · intro q
    simp [scenario1_start, APP_cfg_set_pin, APP_cfg_set_debounce_cycles, APP_init, tset]
  · simp [scenario1_start, APP_cfg_set_pin, APP_cfg_set_debounce_cycles, APP_init, tset,
      single_key_config]

theorem run_ticks_append (P : Platform) (app : App) (l1 l2 : List tick_input) :
    run_ticks P app (l1 ++ l2) = run_ticks P (run_ticks P app l1) l2 := by
  simp [run_ticks, List.foldl_append]

/-- C3 as stated fails: on the board build, after `APP_init` (threshold 8)
and `APP_cfg_set_pin` of the single key `0x04` on pin 1, three ticks sample
every pin low and then pin 1 is sampled high on 9 ticks
(`debounce_valid_cycles + 1`), the keyboard link being free: no keyboard
report has been transmitted. -/
theorem scenario1_nine_ticks_counterexample :
    (run_ticks board (APP_cfg_set_pin board (single_key_config 1 4) (APP_init board))
      (List.replicate 3 (sample []) ++ List.replicate 9 (sample [0]))).kb_sent = [] ∧
    (APP_init board).debounce_valid_cycles + 1 = 9 := by
  decide!

/-- C3 amended. Start from `APP_init`, a debounce threshold `c ≤ 127` and
pin 1 configured as non-ternary with the single keyboard definition `A`
(`0 < A < MOD_LCTRL`); let every pin be sampled low for `n` ticks and then
pin 1 be sampled high, the keyboard link being free. After `c + 1` such
ticks no keyboard report has been transmitted; after `c + 2` such ticks
exactly one has been transmitted, with keymap `[A, 0, .., 0]` and modifier
byte 0. -/
theorem scenario1_key_report (P : Platform) (c A n : Nat)
    (hN1 : 1 ≤ P.APP_CONFIG_PINS) (hN : P.APP_CONFIG_PINS ≤ 256)
    (hD : 1 ≤ P.APP_CONFIG_DEFS_PER_PIN) (hK : 1 ≤ P.USB_KB_REPORT_KEYMAP_SIZE)
    (hc : c ≤ 127) (hA0 : 0 < A) (hA : A < P.MOD_LCTRL) :
    (run_ticks P (scenario1_start P c A)
      (List.replicate n (sample []) ++ List.replicate (c + 1) (sample [0]))).kb_sent = [] ∧
    (run_ticks P (scenario1_start P c A)
      (List.replicate n (sample []) ++ List.replicate (c + 2) (sample [0]))).kb_sent
      = [single_key_report P A] := by
  obtain ⟨hi0, hp0⟩ := scenario1_start_idle P c A hc
  obtain ⟨hi1, hp1⟩ := key_idle_low_ticks P c A n _ hi0 hp0
  obtain ⟨hi2, hd2, hp2⟩ := key_idle_high_ticks P c A _ hN1 hc hi1 hp1 c (le_refl _)
  rw [run_ticks_append, run_ticks_append, List.replicate_succ' (c + 1), run_ticks_append]
  generalize run_ticks P (run_ticks P (scenario1_start P c A) (List.replicate n (sample [])))
    (List.replicate (c + 1) (sample [0])) = s2 at hi2 hd2 hp2 ⊢
  obtain ⟨h1, h2, h3, h4, h5, h6, h7, h8, h9, h10, h11⟩ := hi2
  refine ⟨h6, ?_⟩
  have hlt : 0 < P.APP_CONFIG_PINS := hN1
  have hrun : run_ticks P s2 [sample [0]] = tick P true true s2 (sample [0]).raw := by
    simp [run_ticks, sample]
  have hch : pin_changed (sample [0]).raw s2 0 = true := by
    simp [pin_changed, h3, hd2, h8 0, h9 0, sample_zero_raw, debounce_next_confirm]
  rw [hrun, tick_dirty P true true _ s2 h1 h2 h4 0 hlt hch]
  refine key_press_update P A true _ hN1 hN hD hK hA0 hA ?_ ?_ ?_ ?_ ?_ ?_ ?_
  · exact h6
  · exact h7
  · show (debounce_all P.APP_CONFIG_PINS (sample [0]).raw s2).irq_cur_pin_active 0 = true
    simp only [debounce_all, hlt, if_true, h3, hd2, h8 0, sample_zero_raw, decide_True,
      debounce_next_confirm]
  · intro q hq
    show (debounce_all P.APP_CONFIG_PINS (sample [0]).raw s2).irq_cur_pin_active q = false
    simp only [debounce_all, h3, h8 q, sample_zero_raw, hq, decide_False]
    split_ifs
    · exact (debounce_next_idle c _ (hp2 q hq)).2
    · rfl
  · exact h9
  · exact h10
  · exact h11

/-- Witness for C3 amended on the board build with the default threshold 8
and the key `0x04`: nothing is transmitted after 9 high ticks, the report
`[4,0,0,0,0,0]` after 10. -/
theorem scenario1_key_report_witness :
    (run_ticks board (scenario1_start board 8 4)
      (List.replicate 3 (sample []) ++ List.replicate (8 + 1) (sample [0]))).kb_sent = [] ∧
    (run_ticks board (scenario1_start board 8 4)
      (List.replicate 3 (sample []) ++ List.replicate (8 + 2) (sample [0]))).kb_sent
      = [{ modifiers := 0, reserved := 0, keymap := [4, 0, 0, 0, 0, 0] }] :=
  have h := scenario1_key_report board 8 4 3 (by decide) (by decide) (by decide) (by decide)
    (by decide) (by decide) (by decide)
  ⟨h.1, h.2.trans (by decide)⟩

/-! ## C11: no direct transition between `PIN_ACTIVE` and `PIN_ACTIVE_TERN` -/

/-- C11 (no direct Active<->ActiveTernary transition). With at most 256 pins,
for every record and every pin: if the pin is `PIN_ACTIVE`, it is not
`PIN_ACTIVE_TERN` after `app_pins_update` nor after `APP_cfg_set_pin`; if it
is `PIN_ACTIVE_TERN`, it is not `PIN_ACTIVE` after either of them, whatever
the confirmed level of the gating pin is. -/
theorem no_direct_active_tern_transition (P : Platform) (k m : Bool) (app : App)
    (cfg : def_config) (pin : Nat) (hN : P.APP_CONFIG_PINS ≤ 256) :
    (app.pin_state pin = app_pin_state.PIN_ACTIVE →
      (app_pins_update P k m app).pin_state pin ≠ app_pin_state.PIN_ACTIVE_TERN ∧
      (APP_cfg_set_pin P cfg app).pin_state pin ≠ app_pin_state.PIN_ACTIVE_TERN) ∧
    (app.pin_state pin = app_pin_state.PIN_ACTIVE_TERN →
      (app_pins_update P k m app).pin_state pin ≠ app_pin_state.PIN_ACTIVE ∧
      (APP_cfg_set_pin P cfg app).pin_state pin ≠ app_pin_state.PIN_ACTIVE) := by
  rw [app_pins_update_pin_state P hN]
  have hset : (APP_cfg_set_pin P cfg app).pin_state pin
      = if pin = cfg.pin - 1 then app_pin_state.PIN_INACTIVE else app.pin_state pin := rfl
  rw [hset]
  constructor
  · intro h
    constructor
    · split_ifs
      · simp only [activation_rule, h]
        split_ifs <;> simp_all
      · rw [h]; decide
    · split_ifs
      · decide
      · rw [h]; decide
  · intro h
    constructor
    · split_ifs
      · simp only [activation_rule, h]
        split_ifs <;> simp_all
      · rw [h]; decide
    · split_ifs
      · decide
      · rw [h]; decide

/-- Witness for C11 on the board build: in `gate_change_example` pin 2 is
`PIN_ACTIVE` and its gate pin 1 has become confirmed active; after
`app_pins_update` pin 2 is still `PIN_ACTIVE`, not `PIN_ACTIVE_TERN`. -/
theorem no_direct_active_tern_transition_witness :
    gate_change_example.pin_state 1 = app_pin_state.PIN_ACTIVE ∧
    gate_change_example.irq_cur_pin_active 0 = true ∧
    (app_pins_update board true true gate_change_example).pin_state 1
      ≠ app_pin_state.PIN_ACTIVE_TERN ∧
    (app_pins_update board true true gate_change_example).pin_state 1
      = app_pin_state.PIN_ACTIVE :=
  ⟨by decide, by decide,
   ((no_direct_active_tern_transition board true true gate_change_example
      (single_key_config 1 4) 1 (by decide)).1 (by decide)).1,
   by decide!⟩

/-! ## C12: the two halves of a ternary pin -/

/-- C12 as stated fails: in `splice_overflow_example` pin 2 is ternary with
`tern_splice = 9` and is `PIN_ACTIVE`; its resolved range `[0, 9)` contains
the index 8, which is not below `APP_CONFIG_DEFS_PER_PIN = 8`. -/
theorem ternary_splice_beyond_defs_counterexample :
    (splice_overflow_example.pin_config 1).tern_pin ≠ 0 ∧
    splice_overflow_example.pin_state 1 = app_pin_state.PIN_ACTIVE ∧
    8 ∈ def_range (app_get_def_boundary board splice_overflow_example 1) ∧
    ¬ 8 < board.APP_CONFIG_DEFS_PER_PIN := by
  decide!

/-- C12 amended. For a ternary pin (`tern_pin ≠ 0`) `app_get_def_boundary`
returns `[0, tern_splice)` in state `PIN_ACTIVE` and
`[tern_splice, APP_CONFIG_DEFS_PER_PIN)` in state `PIN_ACTIVE_TERN`; the two
ranges are disjoint for every `tern_splice`, and their union is exactly
`[0, APP_CONFIG_DEFS_PER_PIN)` when `tern_splice ≤ APP_CONFIG_DEFS_PER_PIN`.
For a non-ternary pin the range is `[0, APP_CONFIG_DEFS_PER_PIN)`. -/
theorem ternary_ranges_partition (P : Platform) (app : App) (pin : Nat) :
    ((app.pin_config pin).tern_pin ≠ 0 → app.pin_state pin = app_pin_state.PIN_ACTIVE →
      app_get_def_boundary P app pin = (0, (app.pin_config pin).tern_splice)) ∧
    ((app.pin_config pin).tern_pin ≠ 0 → app.pin_state pin = app_pin_state.PIN_ACTIVE_TERN →
      app_get_def_boundary P app pin
        = ((app.pin_config pin).tern_splice, P.APP_CONFIG_DEFS_PER_PIN)) ∧
    ((app.pin_config pin).tern_pin = 0 →
      app_get_def_boundary P app pin = (0, P.APP_CONFIG_DEFS_PER_PIN)) ∧
    (∀ d, ¬ (d ∈ def_range (0, (app.pin_config pin).tern_splice) ∧
      d ∈ def_range ((app.pin_config pin).tern_splice, P.APP_CONFIG_DEFS_PER_PIN))) ∧
    ((app.pin_config pin).tern_splice ≤ P.APP_CONFIG_DEFS_PER_PIN →
      ∀ d, (d ∈ def_range (0, (app.pin_config pin).tern_splice) ∨
          d ∈ def_range ((app.pin_config pin).tern_splice, P.APP_CONFIG_DEFS_PER_PIN))
        ↔ d < P.APP_CONFIG_DEFS_PER_PIN) := by
  have hmem : ∀ (a b d : Nat), d ∈ def_range (a, b) ↔ a ≤ d ∧ d < b := by
    intro a b d
    simp only [def_range, List.mem_range'_1]
    omega
  refine ⟨?_, ?_, ?_, ?_, ?_⟩
  · intro ht hs
    simp [app_get_def_boundary, ht, hs]
  · intro ht hs
    simp [app_get_def_boundary, ht, hs]
  · intro ht
    simp [app_get_def_boundary, ht]
  · intro d
    rw [hmem, hmem]
    omega
  · intro hle d
    rw [hmem, hmem]
    omega

/-- Witness for C12 amended on the board build: in `gate_change_example`
pin 2 is ternary with `tern_splice = 1` and `PIN_ACTIVE`, its range is
`[0, 1)`; the halves `[0, 1)` and `[1, 8)` cover exactly the indices below 8. -/
theorem ternary_ranges_partition_witness :
    app_get_def_boundary board gate_change_example 1 = (0, 1) ∧
    ∀ d, (d ∈ def_range (0, (gate_change_example.pin_config 1).tern_splice) ∨
        d ∈ def_range ((gate_change_example.pin_config 1).tern_splice,
          board.APP_CONFIG_DEFS_PER_PIN))
      ↔ d < board.APP_CONFIG_DEFS_PER_PIN :=
  ⟨(ternary_ranges_partition board gate_change_example 1).1 (by decide) (by decide),
   (ternary_ranges_partition board gate_change_example 1).2.2.2.2 (by decide)⟩

/-! ## C17: clamping of the mouse report -/

theorem mouse_clamp_eq (v : Int) : mouse_clamp v = max (-127) (min 127 v) := by
  unfold mouse_clamp
  split_ifs <;> omega

/-- C17 (mouse report clamping). For every record and every `mouse_state`,
`app_send_mouse_report` transmits exactly one report, whose `dx`, `dy` and
`wheel` are the inputs clamped independently to `[-127, 127]` (an input in
that range is passed unchanged) and whose button byte is `ms.butt_mask`;
afterwards `butt_mask_prev` is `ms.butt_mask` and `dirty_mouse` is false. -/
theorem mouse_report_clamped (app : App) (ms : mouse_state) :
    (app_send_mouse_report app ms).mouse_sent = app.mouse_sent ++ [clamped_report ms] ∧
    (∀ v : Int, -127 ≤ v → v ≤ 127 → max (-127) (min 127 v) = v) ∧
    (clamped_report ms).modifiers = ms.butt_mask ∧
    -127 ≤ (clamped_report ms).dx ∧ (clamped_report ms).dx ≤ 127 ∧
    -127 ≤ (clamped_report ms).dy ∧ (clamped_report ms).dy ≤ 127 ∧
    -127 ≤ (clamped_report ms).wheel ∧ (clamped_report ms).wheel ≤ 127 ∧
    (app_send_mouse_report app ms).butt_mask_prev = ms.butt_mask ∧
    (app_send_mouse_report app ms).dirty_mouse = false := by
  refine ⟨?_, fun v h1 h2 => by omega, rfl, ?_, ?_, ?_, ?_, ?_, ?_, rfl, rfl⟩
  · simp only [app_send_mouse_report, clamped_report, mouse_clamp_eq]
  all_goals simp only [clamped_report]; omega

/-! ## C14: a mouse report blocked by a busy link -/

theorem mouse_sent_send_kb (P : Platform) (app : App) :
    (app_send_kb_report P app).mouse_sent = app.mouse_sent ∧
    (app_send_kb_report P app).dirty_mouse = app.dirty_mouse := by
  simp only [app_send_kb_report, USB_ARC_KB_tx]
  split_ifs <;> simp

theorem mouse_sent_check_mouse (P : Platform) (app : App) :
    (app_check_mouse_levels P app).1.mouse_sent = app.mouse_sent ∧
    (app_check_mouse_levels P app).1.dirty_mouse = app.dirty_mouse := by
  simp only [app_check_mouse_levels]
  split_ifs <;> simp

theorem mouse_sent_update_kb (P : Platform) (k : Bool) (app : App) :
    (pins_update_kb P k app).mouse_sent = app.mouse_sent ∧
    (pins_update_kb P k app).dirty_mouse = app.dirty_mouse := by
  simp only [pins_update_kb]
  split_ifs
  · exact mouse_sent_send_kb P _
  · constructor <;> trivial

theorem mouse_sent_update_trigger (P : Platform) (app : App) :
    (pins_update_trigger P app).mouse_sent = app.mouse_sent ∧
    (pins_update_trigger P app).dirty_mouse = app.dirty_mouse := by
  obtain ⟨ps, hps⟩ := pins_trigger_all_frame P { app with lock_gpio_sampling := true }
  simp only [pins_update_trigger, hps]
  constructor <;> trivial

/-- The mouse section of `app_pins_update` when the level is dirty and the
link is busy: nothing is transmitted, the report is marked pending. -/
theorem pins_update_mouse_busy (P : Platform) (app : App)
    (hdirty : (app_check_mouse_levels P app).2.2 = true) :
    (pins_update_mouse P false app).mouse_sent = app.mouse_sent ∧
    (pins_update_mouse P false app).dirty_mouse = true := by
  obtain ⟨h1, -⟩ := mouse_sent_check_mouse P app
  simp only [pins_update_mouse, hdirty, Bool.and_false, Bool.false_eq_true, if_false,
    Bool.not_false, Bool.and_self, if_true]
  exact ⟨h1, trivial⟩

/-- The task `app_mouse_usb_ready_msg` with a pending report transmits one
report and clears the pending flag. -/
theorem mouse_usb_ready_msg_pending (P : Platform) (app : App)
    (hpend : app.dirty_mouse = true) :
    (app_mouse_usb_ready_msg P app).mouse_sent
      = app.mouse_sent ++ [clamped_report (app_check_mouse_levels P app).2.1] ∧
    (app_mouse_usb_ready_msg P app).dirty_mouse = false := by
  obtain ⟨h1, h2⟩ := mouse_sent_check_mouse P app
  have key : ∀ (a : App) (ms : mouse_state), a.dirty_mouse = true →
      a.mouse_sent = app.mouse_sent →
      (if a.dirty_mouse = true then app_send_mouse_report a ms else a).mouse_sent
        = app.mouse_sent ++ [clamped_report ms] ∧
      (if a.dirty_mouse = true then app_send_mouse_report a ms else a).dirty_mouse = false := by
    intro a ms ha hs
    rw [if_pos ha]
    refine ⟨?_, rfl⟩
    simp only [app_send_mouse_report, clamped_report, mouse_clamp_eq, hs]
  refine key (if (!(app_check_mouse_levels P app).2.2) = true
      then { (app_check_mouse_levels P app).1 with mouse_timer_running := false }
      else (app_check_mouse_levels P app).1) (app_check_mouse_levels P app).2.1 ?_ ?_
  · split_ifs
    · exact h2.trans hpend
    · exact h2.trans hpend
  · split_ifs
    · exact h1
    · exact h1

/-- C14 (end-to-end scenario 3). For every record in which `app_pins_update`
computes a dirty mouse level while `USB_ARC_MOUSE_can_tx()` is false: no
mouse report is transmitted by that pass and `dirty_mouse` is true after it;
the mouse link-ready notification that follows transmits exactly one mouse
report and leaves `dirty_mouse` false. -/
theorem mouse_busy_then_ready (P : Platform) (k : Bool) (app : App)
    (hdirty : (app_check_mouse_levels P
      (pins_update_kb P k (pins_update_trigger P app))).2.2 = true) :
    (app_pins_update P k false app).mouse_sent = app.mouse_sent ∧
    (app_pins_update P k false app).dirty_mouse = true ∧
    (mouse_ready_notification P (app_pins_update P k false app)).mouse_sent
      = app.mouse_sent
        ++ [clamped_report (app_check_mouse_levels P (app_pins_update P k false app)).2.1] ∧
    (mouse_ready_notification P (app_pins_update P k false app)).dirty_mouse = false := by
  obtain ⟨b1, b2⟩ := pins_update_mouse_busy P _ hdirty
  obtain ⟨k1, -⟩ := mouse_sent_update_kb P k (pins_update_trigger P app)
  obtain ⟨t1, -⟩ := mouse_sent_update_trigger P app
  have hs : (app_pins_update P k false app).mouse_sent = app.mouse_sent := by
    show (pins_update_mouse P false _).mouse_sent = _
    rw [b1, k1, t1]
  have hd : (app_pins_update P k false app).dirty_mouse = true := b2
  obtain ⟨hr, hc⟩ := mouse_usb_ready_msg_pending P _ hd
  refine ⟨hs, hd, ?_, ?_⟩
  · simp only [mouse_ready_notification, app_mouse_ready_irq, if_true]
    rw [hr, hs]
  · simp only [mouse_ready_notification, app_mouse_ready_irq, if_true]
    exact hc

/-- Witness for C14 on the board build: pins 1 and 2 carry `MOUSE_X` and are
active; a pass of `app_pins_update` with the mouse link busy transmits
nothing and sets `dirty_mouse`, the link-ready notification then transmits
one report. -/
theorem mouse_busy_then_ready_witness :
    (app_pins_update board true false
      (two_axis_pins_example mouse_code.MOUSE_X false 5 false 10)).dirty_mouse = true ∧
    (mouse_ready_notification board (app_pins_update board true false
      (two_axis_pins_example mouse_code.MOUSE_X false 5 false 10))).mouse_sent.length
      = (two_axis_pins_example mouse_code.MOUSE_X false 5 false 10).mouse_sent.length + 1 :=
  have h := mouse_busy_then_ready board true
    (two_axis_pins_example mouse_code.MOUSE_X false 5 false 10) (by decide!)
  ⟨h.2.1, by rw [h.2.2.1, List.length_append, List.length_singleton]⟩

/-! ## C18 and C16: the displacement of a mouse definition -/

theorem mouse_displacement_off (app : App) (code : mouse_code) (m : Nat) (hm : m ≤ 255) :
    mouse_displacement app code m false = m := by
  have : m % 256 = m := Nat.mod_eq_of_lt (by omega)
  simp [mouse_displacement, this]

theorem mouse_displacement_saturated (app : App) (code : mouse_code) (m : Nat) (hm : m ≤ 255)
    (h : 4095 ≤ mouse_relevant_acc app code + m) :
    mouse_displacement app code m true = m := by
  have hmod : m % 256 = m := Nat.mod_eq_of_lt (by omega)
  have hn : ¬ (if code = mouse_code.MOUSE_WHEEL then app.acc_whe else app.acc_pos) + m
      < 4095 := by
    unfold mouse_relevant_acc at h
    omega
  simp only [mouse_displacement, hmod, if_true, hn, if_false]

theorem mouse_displacement_accel (app : App) (code : mouse_code) (m : Nat) (hm : m ≤ 255)
    (h : mouse_relevant_acc app code + m < 4095) :
    mouse_displacement app code m true
      = min (1 + m * mouse_relevant_acc app code / 4096) m := by
  have hmod : m % 256 = m := Nat.mod_eq_of_lt (by omega)
  have hy : (if code = mouse_code.MOUSE_WHEEL then app.acc_whe else app.acc_pos) + m
      < 4095 := h
  simp only [mouse_displacement, hmod, if_true, hy]
  show min ((1 + ((((m * mouse_relevant_acc app code) % 2 ^ 32) >>> 12) % 256)) % 256) m = _
  generalize mouse_relevant_acc app code = a at h ⊢
  have ha : a < 4096 := by omega
  have h1 : m * a < 2 ^ 32 := by
    calc m * a ≤ 255 * 4096 := Nat.mul_le_mul hm (Nat.le_of_lt ha)
      _ < 2 ^ 32 := by norm_num
  have h2 : m * a / 4096 ≤ m := by
    apply Nat.div_le_of_le_mul
    calc m * a ≤ m * 4096 := Nat.mul_le_mul_left m (Nat.le_of_lt ha)
      _ = 4096 * m := Nat.mul_comm _ _
  rw [Nat.mod_eq_of_lt h1, Nat.shiftRight_eq_div_pow]
  have h3 : m * a / 2 ^ 12 = m * a / 4096 := by norm_num
  rw [h3]
  by_cases hm0 : m = 0
  · subst hm0
    simp
  · have h4 : m * a / 4096 < m := by
      apply Nat.div_lt_of_lt_mul
      calc m * a < m * 4096 := Nat.mul_lt_mul_of_pos_left ha (by omega)
        _ = 4096 * m := Nat.mul_comm _ _
    rw [Nat.mod_eq_of_lt (by omega : m * a / 4096 < 256),
      Nat.mod_eq_of_lt (by omega : 1 + m * a / 4096 < 256)]

theorem mouse_displacement_le (app : App) (code : mouse_code) (m : Nat) (acc : Bool)
    (hm : m ≤ 255) : mouse_displacement app code m acc ≤ m := by
  cases acc with
  | false => rw [mouse_displacement_off app code m hm]
  | true =>
    by_cases h : mouse_relevant_acc app code + m < 4095
    · rw [mouse_displacement_accel app code m hm h]
      exact Nat.min_le_right _ _
    · rw [mouse_displacement_saturated app code m hm (by omega)]

/-- The displacement with acceleration does not decrease when the relevant
accumulator grows or is at its maximum. -/
theorem mouse_displacement_mono (app1 app2 : App) (code : mouse_code) (m : Nat) (hm : m ≤ 255)
    (h : mouse_relevant_acc app1 code ≤ mouse_relevant_acc app2 code ∨
      4095 ≤ mouse_relevant_acc app2 code) :
    mouse_displacement app1 code m true ≤ mouse_displacement app2 code m true := by
  by_cases h2 : mouse_relevant_acc app2 code + m < 4095
  · have h12 : mouse_relevant_acc app1 code ≤ mouse_relevant_acc app2 code := by
      rcases h with h | h
      · exact h
      · omega
    rw [mouse_displacement_accel app2 code m hm h2,
      mouse_displacement_accel app1 code m hm (by omega)]
    apply min_le_min_right
    have : m * mouse_relevant_acc app1 code / 4096 ≤ m * mouse_relevant_acc app2 code / 4096 :=
      Nat.div_le_div_right (Nat.mul_le_mul_left m h12)
    omega
  · rw [mouse_displacement_saturated app2 code m hm (by omega)]
    exact mouse_displacement_le app1 code m true hm

/-- C18 (acceleration displacement formula). For every mouse definition with
magnitude `m ≤ 255` and relevant accumulator `a` (`acc_whe` for the wheel,
`acc_pos` otherwise): the displacement is `m` when acceleration is disabled
or `a + m ≥ 4095`, and `min (1 + ⌊m * a / 4096⌋) m` when acceleration is
enabled and `a + m < 4095` (the 8-bit stores of the source do not change
that value); it is at most `m`; and a definition that sets the delta of its
axis sets it to `-displacement` when the sign flag is set and to
`+displacement` otherwise. -/
theorem displacement_formula (app : App) (code : mouse_code) (m : Nat) (acc sign : Bool)
    (st : mouse_scan) (hm : m ≤ 255) :
    mouse_displacement app code m false = m ∧
    (4095 ≤ mouse_relevant_acc app code + m → mouse_displacement app code m true = m) ∧
    (mouse_relevant_acc app code + m < 4095 →
      mouse_displacement app code m true
        = min (1 + m * mouse_relevant_acc app code / 4096) m) ∧
    mouse_displacement app code m acc ≤ m ∧
    (st.mdx = 0 →
      (mouse_def_step app st (hid_id.mouse mouse_code.MOUSE_X sign m acc)).mdx
        = if sign then -(mouse_displacement app mouse_code.MOUSE_X m acc : Int)
          else (mouse_displacement app mouse_code.MOUSE_X m acc : Int)) ∧
    (st.mdy = 0 →
      (mouse_def_step app st (hid_id.mouse mouse_code.MOUSE_Y sign m acc)).mdy
        = if sign then -(mouse_displacement app mouse_code.MOUSE_Y m acc : Int)
          else (mouse_displacement app mouse_code.MOUSE_Y m acc : Int)) ∧
    (st.mdw = 0 →
      (mouse_def_step app st (hid_id.mouse mouse_code.MOUSE_WHEEL sign m acc)).mdw
        = if sign then -(mouse_displacement app mouse_code.MOUSE_WHEEL m acc : Int)
          else (mouse_displacement app mouse_code.MOUSE_WHEEL m acc : Int)) := by
  refine ⟨mouse_displacement_off app code m hm, mouse_displacement_saturated app code m hm,
    mouse_displacement_accel app code m hm, mouse_displacement_le app code m acc hm, ?_, ?_, ?_⟩
  · intro h0
    simp [mouse_def_step, h0]
  · intro h0
    simp [mouse_def_step, h0]
  · intro h0
    simp [mouse_def_step, h0]

/-- Witness for C18: in the record after `APP_init` with `acc_pos = 2048`, a
definition on `MOUSE_X` with magnitude 100 and acceleration has displacement
`min (1 + 100 * 2048 / 4096) 100 = 51`. -/
theorem displacement_formula_witness :
    mouse_displacement { APP_init board with acc_pos := 2048 } mouse_code.MOUSE_X 100 true
      = 51 :=
  ((displacement_formula { APP_init board with acc_pos := 2048 } mouse_code.MOUSE_X 100 true
      false { mdx := 0, mdy := 0, mdw := 0, butt_mask := 0, pos_change := false,
              wheel_change := false } (by decide)).2.2.1 (by decide)).trans (by decide)

/-! ## What the mouse scan records: change flags and button mask -/

theorem mouse_fold_pos_change (app : App) (l : List hid_id) (st : mouse_scan) :
    (l.foldl (mouse_def_step app) st).pos_change = (st.pos_change || l.any is_mouse_pos) := by
  induction l generalizing st with
  | nil => simp
  | cons d ds ih =>
    rw [List.foldl_cons, ih, List.any_cons, ← Bool.or_assoc]
    congr 1
    cases d with
    | none => simp [mouse_def_step, is_mouse_pos, is_mouse_code]
    | kb c => simp [mouse_def_step, is_mouse_pos, is_mouse_code]
    | mouse code sign dt ac =>
      cases code <;> simp [mouse_def_step, is_mouse_pos, is_mouse_code]

theorem mouse_fold_wheel_change (app : App) (l : List hid_id) (st : mouse_scan) :
    (l.foldl (mouse_def_step app) st).wheel_change
      = (st.wheel_change || l.any (is_mouse_code mouse_code.MOUSE_WHEEL)) := by
  induction l generalizing st with
  | nil => simp
  | cons d ds ih =>
    rw [List.foldl_cons, ih, List.any_cons, ← Bool.or_assoc]
    congr 1
    cases d with
    | none => simp [mouse_def_step, is_mouse_code]
    | kb c => simp [mouse_def_step, is_mouse_code]
    | mouse code sign dt ac =>
      cases code <;> simp [mouse_def_step, is_mouse_code]

/-- The change flags at the end of the scan of `app_check_mouse_levels`. -/
theorem mouse_scan_all_flags (P : Platform) (app : App) :
    (mouse_scan_all P app).pos_change = (mouse_scanned P app).any is_mouse_pos ∧
    (mouse_scan_all P app).wheel_change
      = (mouse_scanned P app).any (is_mouse_code mouse_code.MOUSE_WHEEL) := by
  rw [mouse_scan_all_eq, mouse_fold_pos_change, mouse_fold_wheel_change]
  simp

/-- The accumulators after `app_check_mouse_levels`. -/
theorem check_mouse_acc (P : Platform) (app : App) :
    (app_check_mouse_levels P app).1.acc_pos
      = (if (mouse_scanned P app).any is_mouse_pos = true
          then min (app.acc_pos + app.acc_pos_speed) 4095 else 0) ∧
    (app_check_mouse_levels P app).1.acc_whe
      = (if (mouse_scanned P app).any (is_mouse_code mouse_code.MOUSE_WHEEL) = true
          then min (app.acc_whe + app.acc_wheel_speed) 4095 else 0) := by
  obtain ⟨h1, h2⟩ := mouse_scan_all_flags P app
  simp only [app_check_mouse_levels, h1, h2]
  constructor <;> split_ifs <;> rfl

/-! ## C15: growth and reset of the accumulators -/

/-- C15 as stated fails for the speed 0: pins 1 and 2 are active and carry
`MOUSE_X`, `acc_pos` is 4 and `acc_pos_speed` has been set to 0; a pass of
`app_check_mouse_levels` scans an X definition and leaves `acc_pos` at 4. -/
theorem accumulator_speed_zero_counterexample :
    (mouse_scanned board (APP_cfg_set_acc_pos_speed 0
      (two_axis_pins_example mouse_code.MOUSE_X false 5 false 10))).any is_mouse_pos = true ∧
    (APP_cfg_set_acc_pos_speed 0
      (two_axis_pins_example mouse_code.MOUSE_X false 5 false 10)).acc_pos = 4 ∧
    (app_check_mouse_levels board (APP_cfg_set_acc_pos_speed 0
      (two_axis_pins_example mouse_code.MOUSE_X false 5 false 10))).1.acc_pos = 4 := by
  decide!

/-- C15 amended. A pass of `app_check_mouse_levels` that scans some X/Y
definition sets `acc_pos` to `min (acc_pos + acc_pos_speed) 4095`: from a
value below 4095 it strictly increases when the speed is at least 1 (with
speed 0 it stays), it never exceeds 4095 and stays at 4095 once there; a pass
that scans no X/Y definition sets `acc_pos` to 0. The same holds for
`acc_whe` with wheel definitions and `acc_wheel_speed`. -/
theorem accumulator_growth (P : Platform) (app : App) :
    ((mouse_scanned P app).any is_mouse_pos = true →
      (app_check_mouse_levels P app).1.acc_pos = min (app.acc_pos + app.acc_pos_speed) 4095 ∧
      (1 ≤ app.acc_pos_speed → app.acc_pos < 4095 →
        app.acc_pos < (app_check_mouse_levels P app).1.acc_pos) ∧
      (app.acc_pos_speed = 0 → app.acc_pos ≤ 4095 →
        (app_check_mouse_levels P app).1.acc_pos = app.acc_pos) ∧
      (app_check_mouse_levels P app).1.acc_pos ≤ 4095 ∧
      (app.acc_pos = 4095 → (app_check_mouse_levels P app).1.acc_pos = 4095)) ∧
    ((mouse_scanned P app).any is_mouse_pos = false →
      (app_check_mouse_levels P app).1.acc_pos = 0) ∧
    ((mouse_scanned P app).any (is_mouse_code mouse_code.MOUSE_WHEEL) = true →
      (app_check_mouse_levels P app).1.acc_whe = min (app.acc_whe + app.acc_wheel_speed) 4095 ∧
      (1 ≤ app.acc_wheel_speed → app.acc_whe < 4095 →
        app.acc_whe < (app_check_mouse_levels P app).1.acc_whe) ∧
      (app.acc_wheel_speed = 0 → app.acc_whe ≤ 4095 →
        (app_check_mouse_levels P app).1.acc_whe = app.acc_whe) ∧
      (app_check_mouse_levels P app).1.acc_whe ≤ 4095 ∧
      (app.acc_whe = 4095 → (app_check_mouse_levels P app).1.acc_whe = 4095)) ∧
    ((mouse_scanned P app).any (is_mouse_code mouse_code.MOUSE_WHEEL) = false →
      (app_check_mouse_levels P app).1.acc_whe = 0) := by
  obtain ⟨h1, h2⟩ := check_mouse_acc P app
  refine ⟨?_, ?_, ?_, ?_⟩
  · intro h
    rw [h1, if_pos h]
    refine ⟨rfl, ?_, ?_, ?_, ?_⟩ <;> omega
  · intro h
    rw [h1, h]
    rfl
  · intro h
    rw [h2, if_pos h]
    refine ⟨rfl, ?_, ?_, ?_, ?_⟩ <;> omega
  · intro h
    rw [h2, h]
    rfl

/-- Witness for C15 amended on the board build (default speed 4): pins 1 and
2 are active and carry `MOUSE_X`; a pass of `app_check_mouse_levels` raises
`acc_pos` from 4 to 8 and resets `acc_whe` to 0. -/
theorem accumulator_growth_witness :
    (two_axis_pins_example mouse_code.MOUSE_X false 5 false 10).acc_pos = 4 ∧
    (app_check_mouse_levels board
      (two_axis_pins_example mouse_code.MOUSE_X false 5 false 10)).1.acc_pos = 8 ∧
    (app_check_mouse_levels board
      (two_axis_pins_example mouse_code.MOUSE_X false 5 false 10)).1.acc_whe = 0 :=
  have h := accumulator_growth board (two_axis_pins_example mouse_code.MOUSE_X false 5 false 10)
  ⟨by decide!, ((h.1 (by decide!)).1).trans (by decide!), h.2.2.2 (by decide!)⟩

/-! ## C16: monotonicity of the displacement -/

/-- C16 (displacement monotonicity). For every magnitude `m ≤ 255` with
acceleration enabled: if the relevant accumulator of `app1` is at most that
of `app2`, the displacement computed in `app1` is at most the one computed in
`app2`; hence a pass of `app_check_mouse_levels` that scans an X/Y definition
does not decrease the displacement of an X/Y/button-code definition, and a
pass that scans a wheel definition does not decrease the displacement of a
wheel definition. -/
theorem displacement_monotone (P : Platform) (app1 app2 : App) (code : mouse_code) (m : Nat)
    (hm : m ≤ 255) :
    (mouse_relevant_acc app1 code ≤ mouse_relevant_acc app2 code →
      mouse_displacement app1 code m true ≤ mouse_displacement app2 code m true) ∧
    ((mouse_scanned P app1).any is_mouse_pos = true → code ≠ mouse_code.MOUSE_WHEEL →
      mouse_displacement app1 code m true
        ≤ mouse_displacement (app_check_mouse_levels P app1).1 code m true) ∧
    ((mouse_scanned P app1).any (is_mouse_code mouse_code.MOUSE_WHEEL) = true →
      code = mouse_code.MOUSE_WHEEL →
      mouse_displacement app1 code m true
        ≤ mouse_displacement (app_check_mouse_levels P app1).1 code m true) := by
  obtain ⟨h1, h2⟩ := check_mouse_acc P app1
  refine ⟨fun h => mouse_displacement_mono app1 app2 code m hm (Or.inl h), ?_, ?_⟩
  · intro hs hc
    apply mouse_displacement_mono app1 _ code m hm
    simp only [mouse_relevant_acc, if_neg hc, h1, if_pos hs]
    omega
  · intro hs hc
    apply mouse_displacement_mono app1 _ code m hm
    simp only [mouse_relevant_acc, if_pos hc, h2, if_pos hs]
    omega

/-- Witness for C16: with magnitude 100 the displacement for `acc_pos = 100`
is 3, for `acc_pos = 2048` it is 51. -/
theorem displacement_monotone_witness :
    mouse_displacement { APP_init board with acc_pos := 100 } mouse_code.MOUSE_X 100 true = 3 ∧
    mouse_displacement { APP_init board with acc_pos := 2048 } mouse_code.MOUSE_X 100 true
      = 51 ∧
    mouse_displacement { APP_init board with acc_pos := 100 } mouse_code.MOUSE_X 100 true
      ≤ mouse_displacement { APP_init board with acc_pos := 2048 } mouse_code.MOUSE_X 100 true :=
  ⟨by decide, by decide,
   (displacement_monotone board { APP_init board with acc_pos := 100 }
      { APP_init board with acc_pos := 2048 } mouse_code.MOUSE_X 100 (by decide)).1
      (by decide)⟩

/-! ## C19: dirty flag and button mask -/

theorem flatMap_range_single {β : Type} (f : Nat → List β) (n q : Nat) (hq : q < n)
    (h : ∀ p, p < n → p ≠ q → f p = []) :
    (List.range n).flatMap f = f q := by
  induction n with
  | zero => omega
  | succ n ih =>
    rw [List.range_succ, List.flatMap_append, List.flatMap_cons, List.flatMap_nil,
      List.append_nil]
    by_cases hqn : q = n
    · subst hqn
      have : (List.range q).flatMap f = [] := by
        rw [List.flatMap_eq_nil_iff]
        intro x hx
        have hx' := List.mem_range.mp hx
        exact h x (by omega) (by omega)
      rw [this, List.nil_append]
    · rw [ih (by omega) (fun p hp hpq => h p (by omega) hpq), h n (by omega) (by omega),
        List.append_nil]

/-- When one pin is the only pin with mouse definitions and it is not
inactive, the mouse scan runs over its resolved range. -/
theorem mouse_scanned_single (P : Platform) (app : App) (q : Nat)
    (hq : q < P.APP_CONFIG_PINS) (hhas : app.pin_has_mouse q = true)
    (hst : app.pin_state q ≠ app_pin_state.PIN_INACTIVE)
    (ho : ∀ p, p < P.APP_CONFIG_PINS → p ≠ q → app.pin_has_mouse p = false) :
    mouse_scanned P app
      = (def_range (app_get_def_boundary P app q)).map (app.pin_config q).id := by
  unfold mouse_scanned
  rw [flatMap_range_single _ _ q hq]
  · simp [hhas, hst]
  · intro p hp hpq
    simp [ho p hp hpq]

/-- The `dx` of scenario 2 in a record in which pin 2 is the only mouse pin
and is not inactive. -/
theorem scenario2_dx (P : Platform) (app : App)
    (hN2 : 2 ≤ P.APP_CONFIG_PINS) (hD : 2 ≤ P.APP_CONFIG_DEFS_PER_PIN)
    (ht : (app.pin_config 1).tern_pin = 1) (hsp : (app.pin_config 1).tern_splice = 1)
    (hid0 : (app.pin_config 1).id 0 = hid_id.mouse mouse_code.MOUSE_X false 10 false)
    (hid1 : (app.pin_config 1).id 1 = hid_id.mouse mouse_code.MOUSE_X true 10 false)
    (hm1 : app.pin_has_mouse 1 = true)
    (hmo : ∀ q, q < P.APP_CONFIG_PINS → q ≠ 1 → app.pin_has_mouse q = false) :
    (app.pin_state 1 = app_pin_state.PIN_ACTIVE →
      app_get_def_boundary P app 1 = (0, 1) ∧ (app_check_mouse_levels P app).2.1.dx = 10) ∧
    (app.pin_state 1 = app_pin_state.PIN_ACTIVE_TERN →
      app_get_def_boundary P app 1 = (1, P.APP_CONFIG_DEFS_PER_PIN) ∧
      (app_check_mouse_levels P app).2.1.dx = -10) := by
  have hX : mouse_code.MOUSE_X = mouse_code.MOUSE_X ∨ mouse_code.MOUSE_X = mouse_code.MOUSE_Y ∨
      mouse_code.MOUSE_X = mouse_code.MOUSE_WHEEL := Or.inl rfl
  constructor
  · intro hs
    have hb : app_get_def_boundary P app 1 = (0, 1) := by
      simp [app_get_def_boundary, ht, hs, hsp]
    have hscan : mouse_scanned P app
        = [] ++ hid_id.mouse mouse_code.MOUSE_X false 10 false :: [] := by
      rw [mouse_scanned_single P app 1 (by omega) hm1 (by rw [hs]; decide) hmo, hb]
      simp [def_range, hid0]
    refine ⟨hb, ?_⟩
    have h := mouse_first_wins P app mouse_code.MOUSE_X [] [] _ hX hscan
      (fun _ he => absurd he (List.not_mem_nil _))
      (by simp [mouse_axis_delta, mouse_displacement])
    rw [show (app_check_mouse_levels P app).2.1.dx
      = mouse_state_axis mouse_code.MOUSE_X (app_check_mouse_levels P app).2.1 from rfl, h]
    simp [mouse_axis_delta, mouse_displacement]
  · intro hs
    have hb : app_get_def_boundary P app 1 = (1, P.APP_CONFIG_DEFS_PER_PIN) := by
      simp [app_get_def_boundary, ht, hs, hsp]
    obtain ⟨n, hn⟩ : ∃ n, P.APP_CONFIG_DEFS_PER_PIN - 1 = n + 1 :=
      ⟨P.APP_CONFIG_DEFS_PER_PIN - 2, by omega⟩
    have hscan : mouse_scanned P app
        = [] ++ hid_id.mouse mouse_code.MOUSE_X true 10 false
          :: (List.range' 2 n).map (app.pin_config 1).id := by
      rw [mouse_scanned_single P app 1 (by omega) hm1 (by rw [hs]; decide) hmo, hb]
      simp only [def_range, hn, List.range'_succ, List.map_cons, hid1, List.nil_append]
    refine ⟨hb, ?_⟩
    have h := mouse_first_wins P app mouse_code.MOUSE_X [] _ _ hX hscan
      (fun _ he => absurd he (List.not_mem_nil _))
      (by simp [mouse_axis_delta, mouse_displacement])
    rw [show (app_check_mouse_levels P app).2.1.dx
      = mouse_state_axis mouse_code.MOUSE_X (app_check_mouse_levels P app).2.1 from rfl, h]
    simp [mouse_axis_delta, mouse_displacement]

/-- C13 (end-to-end scenario 2). Let pin 2 be ternary, gated by pin 1, with
`tern_splice = 1` and the definitions `MOUSE_X +10`, `MOUSE_X -10` without
acceleration, let it be the only mouse pin, stored as inactive and confirmed
active. If pin 1 is not confirmed active, `app_pins_update` makes pin 2
`PIN_ACTIVE`, its resolved range is `[0, 1)`, and `app_check_mouse_levels`
returns `dx = +10`, both in the call made by this pass and in a call after
it; if pin 1 is confirmed active, pin 2 becomes `PIN_ACTIVE_TERN`, its
resolved range is `[1, APP_CONFIG_DEFS_PER_PIN)` and `app_check_mouse_levels`
returns `dx = -10`. -/
theorem scenario2_ternary_mouse (P : Platform) (k m : Bool) (app : App)
    (hN2 : 2 ≤ P.APP_CONFIG_PINS) (hN : P.APP_CONFIG_PINS ≤ 256)
    (hD : 2 ≤ P.APP_CONFIG_DEFS_PER_PIN)
    (ht : (app.pin_config 1).tern_pin = 1) (hsp : (app.pin_config 1).tern_splice = 1)
    (hid0 : (app.pin_config 1).id 0 = hid_id.mouse mouse_code.MOUSE_X false 10 false)
    (hid1 : (app.pin_config 1).id 1 = hid_id.mouse mouse_code.MOUSE_X true 10 false)
    (hm1 : app.pin_has_mouse 1 = true)
    (hmo : ∀ q, q < P.APP_CONFIG_PINS → q ≠ 1 → app.pin_has_mouse q = false)
    (hs : app.pin_state 1 = app_pin_state.PIN_INACTIVE)
    (hcur : app.irq_cur_pin_active 1 = true) :
    (app.irq_cur_pin_active 0 = false →
      (app_pins_update P k m app).pin_state 1 = app_pin_state.PIN_ACTIVE ∧
      app_get_def_boundary P (app_pins_update P k m app) 1 = (0, 1) ∧
      (app_check_mouse_levels P
        (pins_update_kb P k (pins_update_trigger P app))).2.1.dx = 10 ∧
      (app_check_mouse_levels P (app_pins_update P k m app)).2.1.dx = 10) ∧
    (app.irq_cur_pin_active 0 = true →
      (app_pins_update P k m app).pin_state 1 = app_pin_state.PIN_ACTIVE_TERN ∧
      app_get_def_boundary P (app_pins_update P k m app) 1
        = (1, P.APP_CONFIG_DEFS_PER_PIN) ∧
      (app_check_mouse_levels P
        (pins_update_kb P k (pins_update_trigger P app))).2.1.dx = -10 ∧
      (app_check_mouse_levels P (app_pins_update P k m app)).2.1.dx = -10) := by
  have hv := app_pins_update_view P k m app
  simp only [sampler_view, Prod.mk.injEq] at hv
  obtain ⟨-, -, -, -, v5, v6⟩ := hv
  have hw : sampler_view (pins_update_kb P k (pins_update_trigger P app))
      = sampler_view app := by
    rw [sampler_view_update_kb, sampler_view_update_trigger]
  simp only [sampler_view, Prod.mk.injEq] at hw
  obtain ⟨-, -, -, -, w5, w6⟩ := hw
  have hps := app_pins_update_pin_state P hN k m app 1
  rw [if_pos (by omega : 1 < P.APP_CONFIG_PINS)] at hps
  have hqs : (pins_update_kb P k (pins_update_trigger P app)).pin_state 1
      = activation_rule app 1 := by
    rw [pin_state_update_kb, pins_update_trigger_spec P hN]
    simp only [if_pos (by omega : 1 < P.APP_CONFIG_PINS)]
  have hdx := scenario2_dx P (app_pins_update P k m app) hN2 hD (by rw [v5]; exact ht)
    (by rw [v5]; exact hsp) (by rw [v5]; exact hid0) (by rw [v5]; exact hid1)
    (by rw [v6]; exact hm1) (by rw [v6]; exact hmo)
  have hdy := scenario2_dx P (pins_update_kb P k (pins_update_trigger P app)) hN2 hD
    (by rw [w5]; exact ht) (by rw [w5]; exact hsp) (by rw [w5]; exact hid0)
    (by rw [w5]; exact hid1) (by rw [w6]; exact hm1) (by rw [w6]; exact hmo)
  constructor
  · intro hg
    have hrule : activation_rule app 1 = app_pin_state.PIN_ACTIVE := by
      simp [activation_rule, hs, hcur, ht, hg]
    have hst : (app_pins_update P k m app).pin_state 1 = app_pin_state.PIN_ACTIVE := by
      rw [hps, hrule]
    exact ⟨hst, (hdx.1 hst).1, (hdy.1 (by rw [hqs, hrule])).2, (hdx.1 hst).2⟩
  · intro hg
    have hrule : activation_rule app 1 = app_pin_state.PIN_ACTIVE_TERN := by
      simp [activation_rule, hs, hcur, ht, hg]
    have hst : (app_pins_update P k m app).pin_state 1 = app_pin_state.PIN_ACTIVE_TERN := by
      rw [hps, hrule]
    exact ⟨hst, (hdx.2 hst).1, (hdy.2 (by rw [hqs, hrule])).2, (hdx.2 hst).2⟩

/-- Witness for C13 on the board build, both cases reached by sampling
ticks from `APP_init`: with pin 1 inactive `dx` is 10, with pin 1 confirmed
active `dx` is -10. -/
theorem scenario2_ternary_mouse_witness :
    (app_check_mouse_levels board
      (app_pins_update board true true scenario2_gate_inactive)).2.1.dx = 10 ∧
    (app_check_mouse_levels board
      (app_pins_update board true true scenario2_gate_active)).2.1.dx = -10 :=
  ⟨((scenario2_ternary_mouse board true true scenario2_gate_inactive (by decide) (by decide)
      (by decide) (by decide!) (by decide!) (by decide!) (by decide!) (by decide!)
      (by decide!) (by decide!) (by decide!)).1 (by decide!)).2.2.2,
   ((scenario2_ternary_mouse board true true scenario2_gate_active (by decide) (by decide)
      (by decide) (by decide!) (by decide!) (by decide!) (by decide!) (by decide!)
      (by decide!) (by decide!) (by decide!)).2 (by decide!)).2.2.2⟩

/-! ## C20: logical state and confirmed level after an update -/

/-- The state the activation rule gives to a pin is not inactive exactly
when the confirmed level of the pin is active. -/
theorem activation_rule_agrees (app : App) (pin : Nat) :
    activation_rule app pin ≠ app_pin_state.PIN_INACTIVE ↔
      app.irq_cur_pin_active pin = true := by
  unfold activation_rule
  cases hc : app.irq_cur_pin_active pin <;> cases hs : app.pin_state pin <;> simp
  split_ifs <;> simp

/-- C20 (logical state agrees with confirmed level after an update). With at
most 256 pins, for every record: `app_pins_update` does not write the
confirmed levels; after it every pin below `APP_CONFIG_PINS` is not inactive
exactly when its confirmed level is active, `pin_state_prev` equals
`pin_state` and `dirty_gpio` is false; and a following call of `APP_timer`
that changes no confirmed level schedules no task and leaves `dirty_gpio`
false. -/
theorem state_agrees_after_update (P : Platform) (k m : Bool) (app : App)
    (hN : P.APP_CONFIG_PINS ≤ 256) :
    (app_pins_update P k m app).irq_cur_pin_active = app.irq_cur_pin_active ∧
    (∀ pin, pin < P.APP_CONFIG_PINS →
      ((app_pins_update P k m app).pin_state pin ≠ app_pin_state.PIN_INACTIVE ↔
        (app_pins_update P k m app).irq_cur_pin_active pin = true)) ∧
    (app_pins_update P k m app).pin_state_prev = (app_pins_update P k m app).pin_state ∧
    (app_pins_update P k m app).dirty_gpio = false ∧
    (∀ raw : Nat → Bool,
      (∀ pin, pin < P.APP_CONFIG_PINS →
        (APP_timer P raw (app_pins_update P k m app)).1.irq_cur_pin_active pin
          = (app_pins_update P k m app).irq_cur_pin_active pin) →
      (APP_timer P raw (app_pins_update P k m app)).2 = false ∧
      (APP_timer P raw (app_pins_update P k m app)).1.dirty_gpio = false) := by
  have hv := app_pins_update_view P k m app
  simp only [sampler_view, Prod.mk.injEq] at hv
  obtain ⟨-, v2, -, -, -, -⟩ := hv
  have hagree : ∀ pin, pin < P.APP_CONFIG_PINS →
      ((app_pins_update P k m app).pin_state pin ≠ app_pin_state.PIN_INACTIVE ↔
        (app_pins_update P k m app).irq_cur_pin_active pin = true) := by
    intro pin hpin
    rw [app_pins_update_pin_state P hN, if_pos hpin, v2]
    exact activation_rule_agrees app pin
  have hdg : (app_pins_update P k m app).dirty_gpio = false := rfl
  have hlock := app_pins_update_lock P k m app
  refine ⟨v2, hagree, rfl, hdg, ?_⟩
  intro raw hraw
  generalize app_pins_update P k m app = s at hagree hdg hlock hraw ⊢
  by_cases hinit : s.app_init = true
  · obtain ⟨dg, hspec⟩ := APP_timer_spec P raw s hinit hlock
    have hany : (List.range P.APP_CONFIG_PINS).any (pin_changed raw s) = false := by
      rw [List.any_eq_false]
      intro q hq
      have hq' := List.mem_range.mp hq
      have h1 := hraw q hq'
      rw [hspec] at h1
      simp only [debounce_all, hq', if_true] at h1
      have h2 := hagree q hq'
      simp only [pin_changed, h1]
      cases hc : s.irq_cur_pin_active q <;> simp_all
    simp only [APP_timer, hinit, hlock, if_true, Bool.not_false, APP_timer_loop_changes,
      APP_timer_loop_spec, hany, Bool.or_false, Bool.and_false, Bool.false_eq_true, if_false]
    exact ⟨trivial, hdg⟩
  · have hf : s.app_init = false := by simpa using hinit
    simp [APP_timer, hf, hdg]

/-- Witness for C20 on the board build: after `app_pins_update` of
`activation_example`, `dirty_gpio` is false, pin 1 (confirmed active) is not
inactive and pin 4 (confirmed inactive) is inactive. -/
theorem state_agrees_after_update_witness :
    (app_pins_update board true true activation_example).dirty_gpio = false ∧
    (app_pins_update board true true activation_example).pin_state 0
      ≠ app_pin_state.PIN_INACTIVE ∧
    (app_pins_update board true true activation_example).irq_cur_pin_active 3 = false ∧
    ¬ (app_pins_update board true true activation_example).pin_state 3
      ≠ app_pin_state.PIN_INACTIVE :=
  have h := state_agrees_after_update board true true activation_example (by decide)
  ⟨h.2.2.2.1, (h.2.1 0 (by decide)).mpr (by decide!), by decide!,
   fun hne => absurd ((h.2.1 3 (by decide)).mp hne) (by decide!)⟩

end ArcadeHid
